import Mathlib

/-!
Verification development for the solo-TTRPG campaign log parser
(`src/parser/NotationParser.ts` and its collaborators).

Strings are embedded as Lean `String`, but every operation used by the
parser (trim, lower-casing, prefix tests, splitting, substring search)
is implemented over the underlying character list `String.data`, so that
all definitions compute by kernel reduction.  Each definition carries a
comment pointing at the TypeScript source it embeds; components whose
source file is absent from the repository snapshot (TagExtractor,
CodeBlockParser, ProgressParser) are modelled from the specification and
say so in their doc comment.
-/

namespace SoloRPG

/-! ## Character-list string primitives (JS string operations) -/

/-- Characters of a string (the shallow embedding works on `String.data`). -/
def chars (s : String) : List Char := s.data

/-- Rebuild a string from its characters. -/
def ofChars (l : List Char) : String := ⟨l⟩

/-- JS whitespace test for the characters that occur in campaign files
(space, tab, newline, carriage return), as used by `String.prototype.trim`. -/
def wsChar (c : Char) : Bool := c = ' ' || c = '\t' || c = '\n' || c = '\r'

/-- Trim whitespace from both ends of a character list (JS `trim()`). -/
def trimChars (l : List Char) : List Char :=
  ((l.dropWhile wsChar).reverse.dropWhile wsChar).reverse

/-- JS `s.trim()`. -/
def jsTrim (s : String) : String := ofChars (trimChars (chars s))

/-- JS `s.toLowerCase()` on the ASCII names occurring in tags. -/
def jsLower (s : String) : String := ofChars ((chars s).map Char.toLower)

/-- JS `s.startsWith(pre)`. -/
def jsStartsWith (s pre : String) : Bool := (chars pre).isPrefixOf (chars s)

/-- JS `s.slice(n)` for a character count `n`. -/
def jsDrop (s : String) (n : Nat) : String := ofChars ((chars s).drop n)

/-- Substring search on character lists: `true` iff `needle` occurs
contiguously inside `hay` (JS `includes`/`indexOf !== -1`). -/
def listContainsSub (hay needle : List Char) : Bool :=
  match hay with
  | [] => needle.isEmpty
  | _ :: t => needle.isPrefixOf hay || listContainsSub t needle

/-- Split a character list at every occurrence of `sep`
(JS `String.prototype.split` with a one-character separator). -/
def splitOnChar (sep : Char) : List Char → List (List Char)
  | [] => [[]]
  | c :: t =>
    if c = sep then [] :: splitOnChar sep t
    else
      match splitOnChar sep t with
      | [] => [[c]]
      | h :: r => (c :: h) :: r

/-- Split a character list at the first occurrence of the substring
`needle`, returning the parts before and after it (JS
`indexOf`/`slice` pair); `none` when `needle` does not occur. -/
def splitAtSub (hay needle : List Char) : Option (List Char × List Char) :=
  match hay with
  | [] => none
  | c :: t =>
    if needle.isPrefixOf (c :: t) then some ([], (c :: t).drop needle.length)
    else (splitAtSub t needle).map (fun p => (c :: p.1, p.2))

/-- Digit test (regex `\d`). -/
def digitChar (c : Char) : Bool := '0' ≤ c && c ≤ '9'

/-- Parse a nonempty all-digit character run as a number
(JS `parseInt` on a `\d+` capture). -/
def parseDigits (l : List Char) : Nat :=
  l.foldl (fun n c => n * 10 + (c.toNat - '0'.toNat)) 0

/-- Word-character test (regex `\w`). -/
def wordChar (c : Char) : Bool :=
  ('a' ≤ c && c ≤ 'z') || ('A' ≤ c && c ≤ 'Z') || digitChar c || c = '_'

/-- Decimal rendering of a session number (JS template `Session ${n}`). -/
def natChars (n : Nat) : List Char :=
  (Nat.toDigits 10 n)

/-- JS `String(n)` / template interpolation of a number. -/
def natStr (n : Nat) : String := ofChars (natChars n)

/-! ## Data model (`src/types/notation.ts` shapes used by the parser) -/

/-- Source position of one entity mention: `Location` in
`src/types/notation.ts` (file path, absolute line number, owning session
label and scene id). -/
structure Location where
  file : String
  lineNumber : Nat
  session : String
  scene : String
deriving DecidableEq, Repr

/-- Canonical/raw NPC record (`NPC` in `src/types/notation.ts`). -/
structure NPC where
  id : String
  name : String
  tags : List String
  firstMention : Location
  mentions : List Location
deriving DecidableEq, Repr

/-- Location entity record (`LocationTag` in the TS types; distinct from
the source-position `Location`). -/
structure LocationTag where
  id : String
  name : String
  tags : List String
  firstMention : Location
  mentions : List Location
deriving DecidableEq, Repr

/-- Player character record (same shape as `NPC`). -/
structure PlayerCharacter where
  id : String
  name : String
  tags : List String
  firstMention : Location
  mentions : List Location
deriving DecidableEq, Repr

/-- Thread record: a tracked story question with a lifecycle `state`. -/
structure Thread where
  id : String
  name : String
  state : String
  firstMention : Location
  mentions : List Location
deriving DecidableEq, Repr

/-- Discriminant of a back-reference (`[#N:...]` vs `[#L:...]`). -/
inductive RefType where
  | npc
  | location
deriving DecidableEq, Repr

/-- The TS string value of a `RefType` (`'npc' | 'location'`). -/
def RefType.str : RefType → String
  | .npc => "npc"
  | .location => "location"

/-- Back-reference record (`Reference` in the TS types). -/
structure Reference where
  id : String
  name : String
  type : RefType
  firstMention : Location
  mentions : List Location
deriving DecidableEq, Repr

/-- Progress entity with a `current/total` pair; the TS types `Clock`,
`Track` and `Event` share this exact shape. -/
structure ProgressEnt where
  id : String
  name : String
  current : Nat
  total : Nat
  locations : List Location
deriving DecidableEq, Repr

/-- Countdown timer entity (`Timer` in the TS types). -/
structure TimerEnt where
  id : String
  name : String
  value : Nat
  locations : List Location
deriving DecidableEq, Repr

/-! ## Insertion-ordered string-keyed map (TS `Map<string, T>`) -/

/-- Lookup in an insertion-ordered association list (TS `Map.get`). -/
def mapGet {α : Type} (m : List (String × α)) (k : String) : Option α :=
  (m.find? (fun p => p.1 = k)).map (fun p => p.2)

/-- Update in an insertion-ordered association list (TS `Map.set`):
replaces the value in place when the key exists, appends otherwise. -/
def mapSet {α : Type} (m : List (String × α)) (k : String) (v : α) :
    List (String × α) :=
  match m with
  | [] => [(k, v)]
  | (k', v') :: t => if k' = k then (k, v) :: t else (k', v') :: mapSet t k v

/-! ## Tag-diff merge (`NotationParser.getTagKey` / `mergeNPCs` etc.,
`src/src/parser/NotationParser.ts` lines 536-571) -/

/-- Key of a tag: the text before the first `=` when one is present,
otherwise the whole tag (`getTagKey`, NotationParser.ts lines 536-539,
`indexOf('=')` / `slice(0, equalsIndex)`). -/
def getTagKey (tag : String) : String :=
  if (chars tag).contains '=' then ofChars ((chars tag).takeWhile (fun c => c ≠ '='))
  else tag

/-- One step of the tag-diff loop body inside `mergeNPCs`
(NotationParser.ts lines 550-563), applied to the existing tag list and
one incoming tag:
a `-`-prefixed tag removes the exact tag (minus the prefix); a keyed tag
first drops every existing tag with the same key; then the tag is
appended unless already present. -/
def applyTagDiff (tags : List String) (tag : String) : List String :=
  if jsStartsWith tag "-" then
    let tagToRemove := jsDrop tag 1
    tags.filter (fun t => t ≠ tagToRemove)
  else
    let newTagKey := getTagKey tag
    let tags' :=
      if newTagKey ≠ tag then tags.filter (fun t => getTagKey t ≠ newTagKey)
      else tags
    if tag ∈ tags' then tags' else tags' ++ [tag]

/-- Merge one subsequent NPC mention into the existing canonical record
(the `existing` branch of `mergeNPCs`, NotationParser.ts lines 549-564). -/
def mergeNPCInto (existing npc : NPC) : NPC :=
  { existing with
    tags := npc.tags.foldl applyTagDiff existing.tags
    mentions := existing.mentions ++ npc.mentions }

/-- One iteration of the `mergeNPCs` fold: merge into the existing
record when the identity key is already present, otherwise insert a
copy of the mention (NotationParser.ts lines 547-567). -/
def mergeNPCStep (merged : List (String × NPC)) (npc : NPC) : List (String × NPC) :=
  match mapGet merged npc.id with
  | some existing => mapSet merged npc.id (mergeNPCInto existing npc)
  | none => mapSet merged npc.id npc

/-- Merge all NPC mentions into canonical records keyed by identity
(`mergeNPCs`, NotationParser.ts lines 544-571). -/
def mergeNPCs (npcs : List NPC) : List (String × NPC) :=
  npcs.foldl mergeNPCStep []

/-- Merge one subsequent location mention (same diff as NPCs;
`mergeLocations`, NotationParser.ts lines 576-603). -/
def mergeLocationInto (existing loc : LocationTag) : LocationTag :=
  { existing with
    tags := loc.tags.foldl applyTagDiff existing.tags
    mentions := existing.mentions ++ loc.mentions }

/-- Merge all location mentions (`mergeLocations`, lines 576-603). -/
def mergeLocations (locs : List LocationTag) : List (String × LocationTag) :=
  locs.foldl
    (fun merged loc =>
      match mapGet merged loc.id with
      | some existing => mapSet merged loc.id (mergeLocationInto existing loc)
      | none => mapSet merged loc.id loc)
    []

/-- Merge one subsequent player-character mention (same diff as NPCs;
`mergePlayerCharacters`, NotationParser.ts lines 628-655). -/
def mergePlayerCharacterInto (existing pc : PlayerCharacter) : PlayerCharacter :=
  { existing with
    tags := pc.tags.foldl applyTagDiff existing.tags
    mentions := existing.mentions ++ pc.mentions }

/-- Merge all player-character mentions (`mergePlayerCharacters`). -/
def mergePlayerCharacters (pcs : List PlayerCharacter) :
    List (String × PlayerCharacter) :=
  pcs.foldl
    (fun merged pc =>
      match mapGet merged pc.id with
      | some existing => mapSet merged pc.id (mergePlayerCharacterInto existing pc)
      | none => mapSet merged pc.id pc)
    []

/-- One iteration of the `mergeThreads` fold: the existing record's
state is overwritten by the incoming mention's state and the mentions
list is appended (NotationParser.ts lines 611-619). -/
def mergeThreadStep (merged : List (String × Thread)) (thread : Thread) :
    List (String × Thread) :=
  match mapGet merged thread.id with
  | some existing =>
    mapSet merged thread.id
      { existing with
        state := thread.state
        mentions := existing.mentions ++ thread.mentions }
  | none => mapSet merged thread.id thread

/-- Merge all thread mentions: the state is overwritten by the latest
mention and the mentions list is appended (`mergeThreads`,
NotationParser.ts lines 608-623). -/
def mergeThreads (threads : List Thread) : List (String × Thread) :=
  threads.foldl mergeThreadStep []

/-- Merge all back-reference mentions by the `type:id` composite key;
only the mentions list accumulates (`mergeReferences`,
NotationParser.ts lines 660-674). -/
def mergeReferences (refs : List Reference) : List (String × Reference) :=
  refs.foldl
    (fun merged ref =>
      let key := ref.type.str ++ ":" ++ ref.id
      match mapGet merged key with
      | some existing =>
        mapSet merged key { existing with mentions := existing.mentions ++ ref.mentions }
      | none => mapSet merged key ref)
    []

/-! ## Tag extractor (spec-modelled)

The file `src/parser/TagExtractor.ts` is not part of the repository
snapshot (only its unit tests and its callers are), so the extractor is
modelled from the specification, section 4.2, and cross-checked against
the tests in the snapshot. -/

/-- Split a character list at the first closing bracket `]`, returning
the content before it and the remainder after it; `none` when the
bracket never closes (the regex `([^\]]+)\]` then has no match). -/
def takeToClose : List Char → Option (List Char × List Char)
  | [] => none
  | c :: t =>
    if c = ']' then some ([], t)
    else (takeToClose t).map (fun p => (c :: p.1, p.2))

/-- Modelled from the spec: the tag grammar scanner of the missing
`TagExtractor.ts`.  Finds every occurrence of `[<kind>:` (`opener`,
case-sensitive) in the text and yields the raw content up to the
closing `]`; an occurrence with no closing bracket is skipped.  The
`skip` counter replays the regex engine's `lastIndex`: after a match
the scan resumes past the matched text.  Spec section 4.2: grammar
`[<Kind>:<Name>]` / `[<Kind>:<Name>|<tag1>|...]`. -/
def scanTagAux (opener : List Char) : Nat → List Char → List (List Char)
  | _, [] => []
  | skip+1, _ :: t => scanTagAux opener skip t
  | 0, c :: t =>
    if opener.isPrefixOf (c :: t) then
      match takeToClose ((c :: t).drop opener.length) with
      | none => scanTagAux opener 0 t
      | some (content, _) =>
        content :: scanTagAux opener (opener.length + content.length) t
    else scanTagAux opener 0 t

/-- Entry point of the tag scanner: scan from the start of the text. -/
def scanTagContents (opener : List Char) (l : List Char) : List (List Char) :=
  scanTagAux opener 0 l

/-- Modelled from the spec: name-and-tags payload of one bracketed tag.
The raw content is split on `|`; the first segment is the name, the
rest are tags; name and tags are trimmed; an empty trimmed name yields
no mention at all (spec section 4.2). -/
def parseNameTags (inner : List Char) : Option (List Char × List String) :=
  match splitOnChar '|' inner with
  | [] => none
  | nameRaw :: tagParts =>
    let name := trimChars nameRaw
    if name = [] then none
    else some (name, tagParts.map (fun t => ofChars (trimChars t)))

/-- Modelled from the spec: identity key derivation
`<kindPrefix>:<name-lowercased-trimmed>` (spec section 4.2). -/
def mkEntityId (kindPre : String) (trimmedName : List Char) : String :=
  ofChars (chars kindPre ++ trimmedName.map Char.toLower)

/-- Modelled from the spec: `TagExtractor.extractNPCs` — forward tags
`[N:Name|tag1|...]` produce NPC mention records with the derived
identity key and a one-element mentions list. -/
def extractNPCs (content : String) (loc : Location) : List NPC :=
  (scanTagContents (chars "[N:") (chars content)).filterMap fun inner =>
    (parseNameTags inner).map fun p =>
      { id := mkEntityId "npc:" p.1
        name := ofChars p.1
        tags := p.2
        firstMention := loc
        mentions := [loc] }

/-- Modelled from the spec: `TagExtractor.extractLocations` for
`[L:Name|tag1|...]` tags. -/
def extractLocations (content : String) (loc : Location) : List LocationTag :=
  (scanTagContents (chars "[L:") (chars content)).filterMap fun inner =>
    (parseNameTags inner).map fun p =>
      { id := mkEntityId "location:" p.1
        name := ofChars p.1
        tags := p.2
        firstMention := loc
        mentions := [loc] }

/-- Modelled from the spec: `TagExtractor.extractPlayerCharacters` for
`[PC:Name|tag1|...]` tags. -/
def extractPlayerCharacters (content : String) (loc : Location) :
    List PlayerCharacter :=
  (scanTagContents (chars "[PC:") (chars content)).filterMap fun inner =>
    (parseNameTags inner).map fun p =>
      { id := mkEntityId "pc:" p.1
        name := ofChars p.1
        tags := p.2
        firstMention := loc
        mentions := [loc] }

/-- Modelled from the spec: `TagExtractor.extractThreads` —
`[Thread:Name|State]` tags; a thread tag requires the `|<state>`
segment, otherwise it is not emitted (spec section 4.2). -/
def extractThreads (content : String) (loc : Location) : List Thread :=
  (scanTagContents (chars "[Thread:") (chars content)).filterMap fun inner =>
    match splitOnChar '|' inner with
    | nameRaw :: stateRaw :: _ =>
      let name := trimChars nameRaw
      if name = [] then none
      else
        some
          { id := mkEntityId "thread:" name
            name := ofChars name
            state := ofChars (trimChars stateRaw)
            firstMention := loc
            mentions := [loc] }
    | _ => none

/-- Modelled from the spec: `current/total` numeric suffix of progress
tags (regex `(\d+)/(\d+)`). -/
def parseFraction (l : List Char) : Option (Nat × Nat) :=
  match splitOnChar '/' (trimChars l) with
  | [a, b] =>
    if a ≠ [] && a.all digitChar && b ≠ [] && b.all digitChar then
      some (parseDigits a, parseDigits b)
    else none
  | _ => none

/-- Modelled from the spec: split a progress tag's content into name
part and numeric part.  Both the pipe-separated form
`[Clock:Name|3/6]` and the space-separated form `[Clock:Name 3/6]`
must parse identically (spec section 4.2); in the space form the
numeric part is the text after the last space. -/
def splitProgressContent (inner : List Char) : Option (List Char × List Char) :=
  match splitOnChar '|' inner with
  | nameRaw :: numRaw :: _ => some (trimChars nameRaw, numRaw)
  | _ =>
    let w := trimChars inner
    let numPart := (w.reverse.takeWhile (fun c => c ≠ ' ')).reverse
    let namePart := trimChars ((w.reverse.dropWhile (fun c => c ≠ ' ')).reverse)
    if namePart = [] then none else some (namePart, numPart)

/-- Modelled from the spec: generic extractor for the progress kinds
`Clock`, `Track`, `E` — `[<kind>:<Name> <current>/<total>]` or
`[<kind>:<Name>|<current>/<total>]`; a malformed numeric part or empty
name yields no mention. -/
def extractProgress (opener : String) (idPre : String) (content : String)
    (loc : Location) : List ProgressEnt :=
  (scanTagContents (chars opener) (chars content)).filterMap fun inner =>
    match splitProgressContent inner with
    | none => none
    | some (name, numRaw) =>
      if name = [] then none
      else
        (parseFraction numRaw).map fun f =>
          { id := mkEntityId idPre name
            name := ofChars name
            current := f.1
            total := f.2
            locations := [loc] }

/-- Modelled from the spec: `TagExtractor.extractClocks`. -/
def extractClocks (content : String) (loc : Location) : List ProgressEnt :=
  extractProgress "[Clock:" "clock:" content loc

/-- Modelled from the spec: `TagExtractor.extractTracks`. -/
def extractTracks (content : String) (loc : Location) : List ProgressEnt :=
  extractProgress "[Track:" "track:" content loc

/-- Modelled from the spec: `TagExtractor.extractEvents` for `[E:...]`
progress tags. -/
def extractEvents (content : String) (loc : Location) : List ProgressEnt :=
  extractProgress "[E:" "event:" content loc

/-- Modelled from the spec: `TagExtractor.extractTimers` —
`[Timer:Name <value>]` countdown tags. -/
def extractTimers (content : String) (loc : Location) : List TimerEnt :=
  (scanTagContents (chars "[Timer:") (chars content)).filterMap fun inner =>
    match splitProgressContent inner with
    | none => none
    | some (name, numRaw) =>
      if name = [] then none
      else
        let v := trimChars numRaw
        if v ≠ [] && v.all digitChar then
          some
            { id := mkEntityId "timer:" name
              name := ofChars name
              value := parseDigits v
              locations := [loc] }
        else none

/-- Unmerged output of one extractor pass over a text block (the record
returned by `TagExtractor.extractTags`). -/
structure ExtractedTags where
  npcs : List NPC
  locations : List LocationTag
  threads : List Thread
  clocks : List ProgressEnt
  tracks : List ProgressEnt
  timers : List TimerEnt
  events : List ProgressEnt
  playerCharacters : List PlayerCharacter
deriving DecidableEq, Repr

/-- Modelled from the spec: `TagExtractor.extractTags` — one pass
collecting every forward tag kind from a text block. -/
def extractTags (content : String) (loc : Location) : ExtractedTags :=
  { npcs := extractNPCs content loc
    locations := extractLocations content loc
    threads := extractThreads content loc
    clocks := extractClocks content loc
    tracks := extractTracks content loc
    timers := extractTimers content loc
    events := extractEvents content loc
    playerCharacters := extractPlayerCharacters content loc }

/-- A raw back-reference mention before it is turned into records
(name and kind of a `[#N:...]` / `[#L:...]` tag). -/
structure RefMention where
  type : RefType
  name : String
deriving DecidableEq, Repr

/-- Modelled from the spec: the back-reference scanner of
`TagExtractor.extractReferences`; finds `[#N:<Name>]` and `[#L:<Name>]`
occurrences left to right. -/
def scanRefsAux : Nat → List Char → List (RefType × List Char)
  | _, [] => []
  | skip+1, _ :: t => scanRefsAux skip t
  | 0, c :: t =>
    if (chars "[#N:").isPrefixOf (c :: t) then
      match takeToClose ((c :: t).drop 4) with
      | none => scanRefsAux 0 t
      | some (content, _) =>
        (RefType.npc, content) :: scanRefsAux (4 + content.length) t
    else if (chars "[#L:").isPrefixOf (c :: t) then
      match takeToClose ((c :: t).drop 4) with
      | none => scanRefsAux 0 t
      | some (content, _) =>
        (RefType.location, content) :: scanRefsAux (4 + content.length) t
    else scanRefsAux 0 t

/-- Entry point of the back-reference scanner. -/
def scanRefs (l : List Char) : List (RefType × List Char) :=
  scanRefsAux 0 l

/-- Modelled from the spec: `TagExtractor.extractReferences` — each
back-reference yields a typed mention with the trimmed name; an empty
trimmed name yields nothing. -/
def extractReferences (content : String) : List RefMention :=
  (scanRefs (chars content)).filterMap fun p =>
    let name := trimChars p.2
    if name = [] then none else some { type := p.1, name := ofChars name }

/-! ## Code block line classifier (spec-modelled)

The file `src/parser/CodeBlockParser.ts` is not part of the repository
snapshot (only its unit tests are), so the classifier is modelled from
specification section 4.1 and cross-checked against
`tests/parser/CodeBlockParser.test.ts`. -/

/-- Typed payload of one parsed line (the tagged variants of
`NotationElement` in the TS types). -/
inductive ElementPayload where
  | action (content : String)
  | oracleQuestion (question : String)
  | mechanicsRoll (roll : String) (outcome : String) (success : Option Bool)
  | oracleResult (answer : String) (roll : Option String)
  | consequence (description : String)
  | tableLookup (roll : String) (result : String)
  | generator (system : String) (result : String)
  | metaNote (category : String) (content : String)
  | textLine (content : String)
deriving DecidableEq, Repr

/-- One parsed element: payload plus its absolute line number. -/
structure Element where
  lineNumber : Nat
  payload : ElementPayload
deriving DecidableEq, Repr

/-- Modelled from the spec: the explicit trailing `S`/`F` override of
a roll outcome (spec section 4.1: "an explicit trailing `S`/`F` always
wins" over the keyword scan; SRD: "Add `S` or `F` if needed:
`🎲2<4 F`").  The override is the last whitespace-separated token of
the trimmed outcome being exactly `S` or `F`. -/
def explicitOverride (outcome : String) : Option Bool :=
  let t := trimChars (chars outcome)
  let lastTok := (t.reverse.takeWhile (fun c => !wsChar c)).reverse
  if lastTok = ['S'] then some true
  else if lastTok = ['F'] then some false
  else none

/-- Modelled from the spec: success inference for a mechanics roll
(spec section 4.1, rule 3): an explicit trailing `S`/`F` override wins;
otherwise the outcome text is scanned case-insensitively for keywords —
"success" or "strong hit" gives `true`, "fail", "miss" or "weak hit"
gives `false`, and when none match the success is the distinct unknown
value (`null` in TS, `none` here). -/
def determineSuccess (outcome : String) : Option Bool :=
  match explicitOverride outcome with
  | some b => some b
  | none =>
    let low := (chars outcome).map Char.toLower
    if listContainsSub low (chars "success") || listContainsSub low (chars "strong hit") then
      some true
    else if listContainsSub low (chars "fail") || listContainsSub low (chars "miss") ||
        listContainsSub low (chars "weak hit") then
      some false
    else none

/-- Modelled from the spec: split `<before> => <after>` at the first
arrow, trimming both sides; when no arrow occurs the whole text is the
`before` part and `after` is empty. -/
def splitArrow (l : List Char) : List Char × List Char :=
  match splitAtSub l (chars "=>") with
  | some (a, b) => (trimChars a, trimChars b)
  | none => (trimChars l, [])

/-- Modelled from the spec: meta-note recognition (spec section 4.1,
rule 8): a line fully wrapped in parentheses whose inside is
`<category>: <content>` with a bare-word category; any other
parenthesized line is NOT a meta note and falls through to a text
line. -/
def parseMetaNote (t : List Char) : Option (String × String) :=
  match t with
  | '(' :: rest =>
    if rest.getLast? = some ')' then
      match splitOnChar ':' rest.dropLast with
      | cat :: c1 :: cs =>
        let category := trimChars cat
        if category ≠ [] && category.all wordChar then
          some (ofChars category,
            ofChars (trimChars (List.intercalate [':'] (c1 :: cs))))
        else none
      | _ => none
    else none
  | _ => none

/-- Split a character list at the first closing parenthesis `)`,
returning the content before it and the remainder after it (used for
the `(<roll-spec>) <answer>` oracle-result form). -/
def takeToCloseParen : List Char → Option (List Char × List Char)
  | [] => none
  | c :: t =>
    if c = ')' then some ([], t)
    else (takeToCloseParen t).map (fun p => (c :: p.1, p.2))

/-- Modelled from the spec: classify one line of a fenced code block
(spec section 4.1; `CodeBlockParser.ts` is absent from the snapshot).
Recognition order: action, oracle question, mechanics roll (`d:`
marker), oracle result, consequence, table lookup, generator, meta
note, fallback text line; blank lines produce nothing.  The pictographic
dice-glyph shorthand with inline comparisons is not needed by any claim
and is not modelled. -/
def classifyLine (line : String) (lineNumber : Nat) : Option Element :=
  let t := trimChars (chars line)
  if t = [] then none
  else if (chars "▶").isPrefixOf t || (chars ">").isPrefixOf t then
    some ⟨lineNumber, .action (ofChars (trimChars (t.drop 1)))⟩
  else if (chars "?").isPrefixOf t then
    some ⟨lineNumber, .oracleQuestion (ofChars (trimChars (t.drop 1)))⟩
  else if (chars "d:").isPrefixOf t then
    let p := splitArrow (t.drop 2)
    some ⟨lineNumber,
      .mechanicsRoll (ofChars p.1) (ofChars p.2) (determineSuccess (ofChars p.2))⟩
  else if (chars "->").isPrefixOf t || (chars "⤷").isPrefixOf t then
    let rest := trimChars (t.drop (if (chars "->").isPrefixOf t then 2 else 1))
    match rest with
    | '(' :: more =>
      match takeToCloseParen more with
      | some (rollSpec, afterParen) =>
        some ⟨lineNumber,
          .oracleResult (ofChars (trimChars afterParen)) (some (ofChars (trimChars rollSpec)))⟩
      | none => some ⟨lineNumber, .oracleResult (ofChars rest) none⟩
    | _ => some ⟨lineNumber, .oracleResult (ofChars rest) none⟩
  else if (chars "=>").isPrefixOf t || (chars "⇒").isPrefixOf t then
    let k := if (chars "=>").isPrefixOf t then 2 else 1
    some ⟨lineNumber, .consequence (ofChars (trimChars (t.drop k)))⟩
  else if (chars "tbl:").isPrefixOf t then
    match splitAtSub (t.drop 4) (chars "=>") with
    | some (a, b) =>
      some ⟨lineNumber, .tableLookup (ofChars (trimChars a)) (ofChars (trimChars b))⟩
    | none => some ⟨lineNumber, .textLine (ofChars t)⟩
  else if (chars "gen:").isPrefixOf t then
    match splitAtSub (t.drop 4) (chars "=>") with
    | some (a, b) =>
      some ⟨lineNumber, .generator (ofChars (trimChars a)) (ofChars (trimChars b))⟩
    | none => some ⟨lineNumber, .textLine (ofChars t)⟩
  else
    match parseMetaNote t with
    | some (cat, content) => some ⟨lineNumber, .metaNote cat content⟩
    | none => some ⟨lineNumber, .textLine (ofChars t)⟩

/-- Classify a run of lines starting at a given absolute line number
(the per-line loop of `CodeBlockParser.parseCodeBlock`); blank lines
are skipped but still advance the line counter. -/
def parseLinesFrom : Nat → List String → List Element
  | _, [] => []
  | i, l :: t =>
    match classifyLine l i with
    | some e => e :: parseLinesFrom (i + 1) t
    | none => parseLinesFrom (i + 1) t

/-- JS `content.split('\n')`. -/
def jsSplitLines (s : String) : List String :=
  (splitOnChar '\n' (chars s)).map ofChars

/-- Modelled from the spec: `CodeBlockParser.parseCodeBlock` — split
the block into lines and classify each, tracking absolute line
numbers from `startLine`. -/
def parseCodeBlock (content : String) (startLine : Nat) : List Element :=
  parseLinesFrom startLine (jsSplitLines content)

/-! ## Progress semantics helper (spec-modelled)

The file `src/parser/ProgressParser.ts` is not part of the repository
snapshot (only callers are), so the helper is modelled from
specification section 4.3. -/

/-- Modelled from the spec: `ProgressParser.calculateProgress` —
integer percentage 0-100, rounded to nearest; a zero total must not
divide by zero and is defined as 0%.  Inputs are the natural numbers
produced by the `\d+` captures of progress tags; `(200 * c + t) / (2 * t)`
is round-to-nearest of `100 * c / t` in integer arithmetic, and the
result is clamped into the spec's 0-100 range. -/
def calculateProgress (current total : Nat) : Nat :=
  if total = 0 then 0
  else min 100 ((200 * current + total) / (2 * total))

/-- Modelled from the spec: one merge step for progress entities
(spec section 4.5: Clock/Track/Event `current`/`total` fields are
overwritten to the latest mention's values, locations appended;
`ProgressParser.ts` is absent from the snapshot). -/
def mergeProgressStep (merged : List (String × ProgressEnt)) (c : ProgressEnt) :
    List (String × ProgressEnt) :=
  match mapGet merged c.id with
  | some existing =>
    mapSet merged c.id
      { existing with
        current := c.current
        total := c.total
        locations := existing.locations ++ c.locations }
  | none => mapSet merged c.id c

/-- Modelled from the spec: `ProgressParser.mergeClocks` — last-write-wins
merge of clock mentions by identity key. -/
def mergeClocks (cs : List ProgressEnt) : List (String × ProgressEnt) :=
  cs.foldl mergeProgressStep []

/-- Modelled from the spec: `ProgressParser.mergeTracks` (tracks share
the clock shape and merge policy). -/
def mergeTracks (cs : List ProgressEnt) : List (String × ProgressEnt) :=
  cs.foldl mergeProgressStep []

/-- Modelled from the spec: `ProgressParser.mergeEvents` (events share
the clock shape and merge policy). -/
def mergeEvents (cs : List ProgressEnt) : List (String × ProgressEnt) :=
  cs.foldl mergeProgressStep []

/-- Modelled from the spec: `ProgressParser.mergeTimers` — the timer
value is overwritten to the latest mention's value, locations
appended (spec section 4.5). -/
def mergeTimers (ts : List TimerEnt) : List (String × TimerEnt) :=
  ts.foldl
    (fun merged t =>
      match mapGet merged t.id with
      | some existing =>
        mapSet merged t.id
          { existing with
            value := t.value
            locations := existing.locations ++ t.locations }
      | none => mapSet merged t.id t)
    []

/-! ## Scene content and scene segmentation
(`NotationParser.parseSceneContent` / `parseScenes`,
`src/src/parser/NotationParser.ts` lines 328-421) -/

/-- Loop state of `parseSceneContent` (NotationParser.ts lines 390-395):
accumulated elements, whether the scan is inside a fenced code block,
the pending block content and the block's start index. -/
structure FenceState where
  elements : List Element
  inCodeBlock : Bool
  codeBlockContent : List String
  codeBlockStartLine : Nat
deriving Repr

/-- JS `lines.join('\n')`. -/
def joinLines (ls : List String) : String :=
  ofChars (List.intercalate ['\n'] (ls.map chars))

/-- One iteration of the `parseSceneContent` loop (NotationParser.ts
lines 397-418): a line trimming to a bare triple-backtick fence either
opens a block (recording the next index as the block start) or closes
it (parsing the pending content); other lines accumulate only inside a
block. -/
def fenceStep (base : Nat) (st : FenceState) (i : Nat) (line : String) : FenceState :=
  if jsTrim line = "```" then
    if st.inCodeBlock then
      { elements :=
          st.elements ++ parseCodeBlock (joinLines st.codeBlockContent) (base + st.codeBlockStartLine)
        inCodeBlock := false
        codeBlockContent := []
        codeBlockStartLine := st.codeBlockStartLine }
    else
      { st with inCodeBlock := true, codeBlockStartLine := i + 1 }
  else if st.inCodeBlock then
    { st with codeBlockContent := st.codeBlockContent ++ [line] }
  else st

/-- Run the `parseSceneContent` loop over the lines from index `i`. -/
def fenceLoop (base : Nat) : Nat → FenceState → List String → FenceState
  | _, st, [] => st
  | i, st, l :: t => fenceLoop base (i + 1) (fenceStep base st i l) t

/-- The `parseSceneContent` loop on a pre-split line list: elements come
only from completed fence pairs; an unterminated block's pending
content is dropped when the loop ends (`NotationParser.parseSceneContent`,
lines 389-421). -/
def parseSceneContentLines (lines : List String) (base : Nat) : List Element :=
  (fenceLoop base 0 ⟨[], false, [], 0⟩ lines).elements

/-- Parse the notation elements of one scene's content
(`parseSceneContent`, NotationParser.ts lines 389-421; the TS method
also receives the file path but never uses it). -/
def parseSceneContent (content : String) (base : Nat) : List Element :=
  parseSceneContentLines (jsSplitLines content) base

/-- One scene of a session (`Scene` in the TS types). -/
structure Scene where
  id : String
  number : String
  context : Option String
  startLine : Nat
  endLine : Nat
  elements : List Element
deriving DecidableEq, Repr

/-- Scene-identifier alternative 1 of the scene-heading regex:
`S[\w.-]+` — an `S` followed by at least one word, dot or hyphen
character; returns the match and the remainder. -/
def matchSceneIdAlt1 (l : List Char) : Option (List Char × List Char) :=
  match l with
  | 'S' :: r =>
    let run := r.takeWhile (fun c => wordChar c || c = '.' || c = '-')
    if run = [] then none else some ('S' :: run, r.drop run.length)
  | _ => none

/-- Scene-identifier alternative 2 of the scene-heading regex:
`\w+-S[\w.-]+` — a thread prefix, a hyphen, then an `S`-code. -/
def matchSceneIdAlt2 (l : List Char) : Option (List Char × List Char) :=
  let w := l.takeWhile wordChar
  if w = [] then none
  else
    match l.drop w.length with
    | '-' :: 'S' :: r =>
      let run := r.takeWhile (fun c => wordChar c || c = '.' || c = '-')
      if run = [] then none
      else some (w ++ '-' :: 'S' :: run, r.drop run.length)
    | _ => none

/-- Match the scene heading regex
`^###\s+(S[\w.-]+|\w+-S[\w.-]+)\s*\*?([^*]*)\*?` (NotationParser.ts
line 340), returning the scene identifier and the optional trimmed
context phrase (`sceneMatch[2]?.trim() || undefined`, lines 354-355). -/
def matchSceneHeader (line : String) : Option (String × Option String) :=
  let l := chars line
  if (chars "###").isPrefixOf l then
    let rest := l.drop 3
    if rest.takeWhile wsChar = [] then none
    else
      let r1 := rest.dropWhile wsChar
      match (matchSceneIdAlt1 r1).or (matchSceneIdAlt2 r1) with
      | none => none
      | some (g1, rem) =>
        let rem1 := rem.dropWhile wsChar
        let rem2 := if rem1.head? = some '*' then rem1.drop 1 else rem1
        let ctx := trimChars (rem2.takeWhile (fun c => c ≠ '*'))
        some (ofChars g1, if ctx = [] then none else some (ofChars ctx))
  else none

/-- Loop state of `parseScenes` (NotationParser.ts lines 329-334). -/
structure ScenesState where
  scenes : List Scene
  currentScene : Option Scene
  currentSceneContent : List String
  sceneStartLine : Nat
deriving Repr

/-- One iteration of the `parseScenes` loop (NotationParser.ts lines
336-370): a scene heading closes the current scene (parsing its
collected content) and opens a new one; other lines accumulate into
the open scene and are dropped before the first heading. -/
def scenesStep (base : Nat) (st : ScenesState) (i : Nat) (line : String) : ScenesState :=
  match matchSceneHeader line with
  | some (sceneNumber, context) =>
    let closed :=
      match st.currentScene with
      | some sc =>
        st.scenes ++
          [{ sc with
              elements := parseSceneContent (joinLines st.currentSceneContent) (base + st.sceneStartLine)
              endLine := base + i - 1 }]
      | none => st.scenes
    { scenes := closed
      currentScene := some
        { id := sceneNumber
          number := sceneNumber
          context := context
          startLine := base + i
          endLine := base + i
          elements := [] }
      currentSceneContent := []
      sceneStartLine := i }
  | none =>
    match st.currentScene with
    | some _ => { st with currentSceneContent := st.currentSceneContent ++ [line] }
    | none => st

/-- Run the `parseScenes` loop from index `i`. -/
def scenesLoop (base : Nat) : Nat → ScenesState → List String → ScenesState
  | _, st, [] => st
  | i, st, l :: t => scenesLoop base (i + 1) (scenesStep base st i l) t

/-- Parse the scenes of one session's content (`parseScenes`,
NotationParser.ts lines 328-384; the TS method also receives the file
path but only forwards it to `parseSceneContent`, which ignores it). -/
def parseScenes (content : String) (baseLineNumber : Nat) : List Scene :=
  let lines := jsSplitLines content
  let st := scenesLoop baseLineNumber 0 ⟨[], none, [], 0⟩ lines
  match st.currentScene with
  | some sc =>
    st.scenes ++
      [{ sc with
          elements := parseSceneContent (joinLines st.currentSceneContent) (baseLineNumber + st.sceneStartLine)
          endLine := baseLineNumber + lines.length - 1 }]
  | none => st.scenes

/-! ## Session segmentation
(`NotationParser.parseSessions` and helpers,
`src/src/parser/NotationParser.ts` lines 85-323) -/

/-- One session of a campaign (`Session` in the TS types). -/
structure Session where
  number : Nat
  date : Option String
  duration : Option String
  recap : Option String
  goals : Option String
  scenes : List Scene
  startLine : Nat
  endLine : Nat
  metadata : List (String × String)
  linkedFile : Option String
deriving DecidableEq, Repr

/-- Match the inline session heading regex `^##\s+Sessione?\s+(\d+)`
(case-insensitive, NotationParser.ts line 102), returning the parsed
session number.  A `###` scene heading never matches because the
character after `##` must be whitespace. -/
def matchSessionHeader (line : String) : Option Nat :=
  let l := chars line
  if (chars "##").isPrefixOf l then
    let rest := l.drop 2
    if rest.takeWhile wsChar = [] then none
    else
      let r := rest.dropWhile wsChar
      if (r.take 7).map Char.toLower = chars "session" then
        let r2 := r.drop 7
        let r3 := if r2.head?.map Char.toLower = some 'e' then r2.drop 1 else r2
        if r3.takeWhile wsChar = [] then none
        else
          let d := (r3.dropWhile wsChar).takeWhile digitChar
          if d = [] then none else some (parseDigits d)
      else none
  else none

/-- Parse the `*Key: value | Key2: value2*` metadata annotation on the
line after a session heading (`parseSessionMetadata`, NotationParser.ts
lines 184-200): the first `*...*` group is split on `|`, each pair on
`:`, keys and values trimmed, and set only when both are nonempty. -/
def takeToCloseStar : List Char → Option (List Char × List Char)
  | [] => none
  | c :: t =>
    if c = '*' then some ([], t)
    else (takeToCloseStar t).map (fun p => (c :: p.1, p.2))

/-- Match `\s+(\d+)` — mandatory whitespace then a digit capture —
after the session word, returning the parsed number. -/
def sessionWordNum (l : List Char) : Option Nat :=
  if l.takeWhile wsChar = [] then none
  else
    let d := (l.dropWhile wsChar).takeWhile digitChar
    if d = [] then none else some (parseDigits d)

/-- Parse the `*Key: value | Key2: value2*` metadata annotation on the
line after a session heading (`parseSessionMetadata`, NotationParser.ts
lines 184-200): the first `*...*` group is split on `|`, each pair on
`:`, keys and values trimmed, and set only when both are nonempty. -/
def parseSessionMetadata (line : String) : List (String × String) :=
  match splitAtSub (chars line) ['*'] with
  | none => []
  | some (_, afterStar) =>
    match takeToCloseStar afterStar with
    | none => []
    | some (inner, _) =>
      (splitOnChar '|' inner).foldl
        (fun m pair =>
          match splitOnChar ':' pair with
          | k :: v :: _ =>
            let key := ofChars (trimChars k)
            let value := ofChars (trimChars v)
            if key ≠ "" && value ≠ "" then mapSet m key value else m
          | _ => m)
        []

/-- A detected session link (the record type built by
`extractSessionLinks`, NotationParser.ts lines 205-216). -/
structure SessionLink where
  lineNumber : Nat
  sessionNumber : Nat
  linkText : String
  linkedFilePath : Option String
deriving DecidableEq, Repr

/-- Try the `(Session|Sessione)\s+(\d+)` word of the session-link
pattern (case-insensitive) at the very start of the text, returning the
captured number.  Mirrors the regex alternation: plain `Session` first,
then `Sessione`. -/
def sessionWordAt (l : List Char) : Option Nat :=
  if (l.take 7).map Char.toLower = chars "session" then
    let r := l.drop 7
    match sessionWordNum r with
    | some n => some n
    | none =>
      if r.head?.map Char.toLower = some 'e' then sessionWordNum (r.drop 1)
      else none
  else none

/-- Scan for the session word after each `/` path separator (the
`(?:^|\/)` anchor of the session-link pattern at non-start
positions). -/
def sessionAfterSlash : List Char → Option Nat
  | [] => none
  | c :: t =>
    if c = '/' then
      match sessionWordAt t with
      | some n => some n
      | none => sessionAfterSlash t
    else sessionAfterSlash t

/-- Match the session-link pattern
`(?:^|\/)(Session|Sessione)\s+(\d+)` (case-insensitive,
NotationParser.ts line 220) anywhere in the text: at the start, or
right after a `/` path separator; first match wins. -/
def sessionPatternFirst (l : List Char) : Option Nat :=
  match sessionWordAt l with
  | some n => some n
  | none => sessionAfterSlash l

/-- Scan each line for `[[...]]` wikilinks (regex `\[\[([^\]]+)\]\]`,
global; NotationParser.ts line 219), returning the inner contents in
order.  The `skip` counter replays the regex engine's `lastIndex`. -/
def scanWikilinksAux : Nat → List Char → List (List Char)
  | _, [] => []
  | skip+1, _ :: t => scanWikilinksAux skip t
  | 0, c :: t =>
    match c :: t with
    | '[' :: '[' :: rest =>
      let content := rest.takeWhile (fun d => d ≠ ']')
      if content ≠ [] && (rest.drop content.length).take 2 = [']', ']'] then
        content :: scanWikilinksAux (3 + content.length) t
      else scanWikilinksAux 0 t
    | _ => scanWikilinksAux 0 t

/-- Entry point of the wikilink scanner for one line. -/
def scanWikilinks (l : List Char) : List (List Char) :=
  scanWikilinksAux 0 l

/-- The read-only host collaborators used by the parser: link-path
resolution (`app.metadataCache.getFirstLinkpathDest`) and file reading
(`app.vault.read`); a `none` read covers both a missing file and a
thrown read error. -/
structure Vault where
  resolve : String → String → Option String
  read : String → Option String

/-- Detect session links in the content (`extractSessionLinks`,
NotationParser.ts lines 205-267): every wikilink whose path part (text
before `|`) or alias part matches the session pattern yields a link
record carrying its line index, session number and the resolved target
path. -/
def extractSessionLinks (vault : Vault) (content : String) (basePath : String) :
    List SessionLink :=
  ((jsSplitLines content).enum.map fun p =>
    (scanWikilinks (chars p.2)).filterMap fun linkContent =>
      let pipeSplit := splitAtSub linkContent ['|']
      let linkPath := match pipeSplit with
        | some q => q.1
        | none => linkContent
      let linkAlias : Option (List Char) := match pipeSplit with
        | some q => some q.2
        | none => none
      let pathMatch := sessionPatternFirst linkPath
      let aliasMatch := match linkAlias with
        | some a => sessionPatternFirst a
        | none => none
      match pathMatch.or aliasMatch with
      | none => none
      | some n =>
        some
          { lineNumber := p.1
            sessionNumber := n
            linkText := ofChars ('[' :: '[' :: linkContent ++ [']', ']'])
            linkedFilePath := vault.resolve (ofChars linkPath) basePath }).flatten

/-- Match one `^\*\*Recap:\*\*\s*(.+)$`-style labelled metadata line of
a linked session document (case-insensitive on the label;
NotationParser.ts lines 294-301), returning the trimmed captured
text. -/
def matchLabelled (label : String) (line : String) : Option String :=
  let l := chars line
  let marker := chars label
  if (l.take marker.length).map Char.toLower = marker.map Char.toLower then
    let rest := l.drop marker.length
    if rest = [] then none else some (ofChars (trimChars rest))
  else none

/-- Parse a standalone linked session document (`parseSessionFile`,
NotationParser.ts lines 272-323): read the target through the host
collaborator (`none` on failure), take the asterisk metadata from the
first line, let explicit `**Recap:**` / `**Goals:**` lines anywhere in
the document override it, and parse the whole document as scenes. -/
def parseSessionFile (vault : Vault) (filePath : String) (sessionNumber : Nat) :
    Option Session :=
  match vault.read filePath with
  | none => none
  | some content =>
    let lines := jsSplitLines content
    let metadata0 := parseSessionMetadata (lines.getD 0 "")
    let metadata := lines.foldl
      (fun m line =>
        let m' := match matchLabelled "**Recap:**" line with
          | some v => mapSet m "Recap" v
          | none => m
        match matchLabelled "**Goals:**" line with
        | some v => mapSet m' "Goals" v
        | none => m')
      metadata0
    let scenes := parseScenes content 0
    some
      { number := sessionNumber
        date := mapGet metadata "Date"
        duration := mapGet metadata "Duration"
        recap := mapGet metadata "Recap"
        goals := mapGet metadata "Goals"
        scenes := scenes
        startLine := 0
        endLine := lines.length - 1
        metadata := metadata
        linkedFile := some filePath }

/-- Loop state of `parseSessions` (NotationParser.ts lines 86-96). -/
structure SessionsState where
  sessions : List Session
  currentSession : Option Session
  currentSessionContent : List String
  sessionStartLine : Nat

/-- Close the currently open inline session: parse its collected
content into scenes and record its end line (NotationParser.ts lines
111-119 and 165-173). -/
def closeSession (st : SessionsState) (endLine : Nat) : List Session :=
  match st.currentSession with
  | some s =>
    st.sessions ++
      [{ s with
          scenes := parseScenes (joinLines st.currentSessionContent) st.sessionStartLine
          endLine := endLine }]
  | none => st.sessions

/-- One iteration of the `parseSessions` loop (NotationParser.ts lines
98-162): an inline session heading closes the previous session and
opens a new one (reading the metadata annotation from the next line);
a session link is honoured only when no inline session is open; other
lines accumulate into the open inline session. -/
def sessionsStep (vault : Vault) (links : List SessionLink) (lines : List String)
    (st : SessionsState) (i : Nat) (line : String) : SessionsState :=
  match matchSessionHeader line with
  | some n =>
    let metadata := parseSessionMetadata (lines.getD (i + 1) "")
    { sessions := closeSession st (i - 1)
      currentSession := some
        { number := n
          date := mapGet metadata "Date"
          duration := mapGet metadata "Duration"
          recap := mapGet metadata "Recap"
          goals := mapGet metadata "Goals"
          scenes := []
          startLine := i
          endLine := i
          metadata := metadata
          linkedFile := none }
      currentSessionContent := []
      sessionStartLine := i }
  | none =>
    match st.currentSession with
    | some _ => { st with currentSessionContent := st.currentSessionContent ++ [line] }
    | none =>
      match links.find? (fun l => l.lineNumber = i) with
      | some lm =>
        match lm.linkedFilePath with
        | some p =>
          match parseSessionFile vault p lm.sessionNumber with
          | some s =>
            { st with
                sessions := st.sessions ++
                  [{ s with startLine := lm.lineNumber, endLine := lm.lineNumber }] }
          | none => st
        | none => st
      | none => st

/-- Run the `parseSessions` loop from index `i`. -/
def sessionsLoop (vault : Vault) (links : List SessionLink) (lines : List String) :
    Nat → SessionsState → List String → SessionsState
  | _, st, [] => st
  | i, st, l :: t =>
    sessionsLoop vault links lines (i + 1) (sessionsStep vault links lines st i l) t

/-- Stable ascending insertion by session number: a new session goes
after every already-placed session with a smaller-or-equal number.
This is the behaviour of the stable JS `Array.prototype.sort` with the
comparator `(a, b) => a.number - b.number` (NotationParser.ts line 176). -/
def insertByNumber (s : Session) : List Session → List Session
  | [] => [s]
  | t :: ts => if s.number < t.number then s :: t :: ts else t :: insertByNumber s ts

/-- Stable sort of the collected sessions by ascending number
(`sessions.sort((a, b) => a.number - b.number)`, NotationParser.ts
lines 175-176). -/
def sortSessionsByNumber (l : List Session) : List Session :=
  l.foldl (fun acc s => insertByNumber s acc) []

/-- Parse all sessions, inline and linked (`parseSessions`,
NotationParser.ts lines 85-179): scan the lines, close the last open
inline session at end of input, and finally sort the collected
sessions ascending by session number. -/
def parseSessions (vault : Vault) (content : String) (filePath : String) :
    List Session :=
  let lines := jsSplitLines content
  let links := extractSessionLinks vault content filePath
  let st := sessionsLoop vault links lines 0 ⟨[], none, [], 0⟩ lines
  let sessions := closeSession st (lines.length - 1)
  sortSessionsByNumber sessions

/-! ## Tag collection across sessions
(`NotationParser.collectAllTags`, `src/src/parser/NotationParser.ts`
lines 426-531) -/

/-- The flat mention lists collected across all sessions (the record
returned by `collectAllTags`). -/
structure AllTags where
  npcs : List NPC
  locations : List LocationTag
  threads : List Thread
  clocks : List ProgressEnt
  tracks : List ProgressEnt
  timers : List TimerEnt
  events : List ProgressEnt
  playerCharacters : List PlayerCharacter
  references : List Reference
deriving DecidableEq, Repr

/-- The empty collection. -/
def AllTags.empty : AllTags := ⟨[], [], [], [], [], [], [], [], []⟩

/-- Concatenate two collections field-wise (the `push(...)` calls of
`collectAllTags` accumulate in scan order). -/
def AllTags.append (a b : AllTags) : AllTags :=
  { npcs := a.npcs ++ b.npcs
    locations := a.locations ++ b.locations
    threads := a.threads ++ b.threads
    clocks := a.clocks ++ b.clocks
    tracks := a.tracks ++ b.tracks
    timers := a.timers ++ b.timers
    events := a.events ++ b.events
    playerCharacters := a.playerCharacters ++ b.playerCharacters
    references := a.references ++ b.references }

/-- The text of an element that is scanned for entity tags, by element
type (`collectAllTags`, NotationParser.ts lines 448-471): meta notes
are excluded from entity scanning. -/
def elementScanText (e : Element) : Option String :=
  match e.payload with
  | .action c => some c
  | .oracleQuestion q => some q
  | .mechanicsRoll r o _ => some (r ++ " " ++ o)
  | .oracleResult a _ => some a
  | .consequence d => some d
  | .textLine c => some c
  | .tableLookup _ r => some r
  | .generator _ r => some r
  | .metaNote _ _ => none

/-- The canonical NPC record synthesized from one back-reference
(`collectAllTags`, NotationParser.ts lines 497-504): identity
`npc:<name lower-cased>`, zero tags, one mention. -/
def refToNPC (r : RefMention) (loc : Location) : NPC :=
  { id := ofChars (chars "npc:" ++ (chars r.name).map Char.toLower)
    name := r.name
    tags := []
    firstMention := loc
    mentions := [loc] }

/-- The canonical location record synthesized from one back-reference
(`collectAllTags`, NotationParser.ts lines 505-513). -/
def refToLocation (r : RefMention) (loc : Location) : LocationTag :=
  { id := ofChars (chars "location:" ++ (chars r.name).map Char.toLower)
    name := r.name
    tags := []
    firstMention := loc
    mentions := [loc] }

/-- The reference record pushed for one back-reference mention
(`collectAllTags`, NotationParser.ts lines 487-494): its `id` is the
raw name, with the original letter case preserved. -/
def refToReference (r : RefMention) (loc : Location) : Reference :=
  { id := r.name
    name := r.name
    type := r.type
    firstMention := loc
    mentions := [loc] }

/-- Mentions contributed by one element (`collectAllTags` inner loop
body, NotationParser.ts lines 439-515): the element's scan text is
extracted by type, forward tags are collected, then every
back-reference contributes a reference record and additionally
synthesizes a zero-tag NPC or location entry. -/
def collectFromElement (filePath : String) (sessionNumber : Nat)
    (sceneId : String) (e : Element) : AllTags :=
  let loc : Location :=
    { file := filePath
      lineNumber := e.lineNumber
      session := "Session " ++ natStr sessionNumber
      scene := sceneId }
  match elementScanText e with
  | none => AllTags.empty
  | some contentToScan =>
    if contentToScan = "" then AllTags.empty
    else
      let tags := extractTags contentToScan loc
      let refs := extractReferences contentToScan
      { npcs := tags.npcs ++
          (refs.filterMap fun r =>
            if r.type = RefType.npc then some (refToNPC r loc) else none)
        locations := tags.locations ++
          (refs.filterMap fun r =>
            if r.type = RefType.location then some (refToLocation r loc) else none)
        threads := tags.threads
        clocks := tags.clocks
        tracks := tags.tracks
        timers := tags.timers
        events := tags.events
        playerCharacters := tags.playerCharacters
        references := refs.map (fun r => refToReference r loc) }

/-- Collect every mention from every element of every scene of every
session, in document scan order (`collectAllTags`, NotationParser.ts
lines 426-531). -/
def collectAllTags (sessions : List Session) (filePath : String) : AllTags :=
  sessions.foldl
    (fun acc session =>
      session.scenes.foldl
        (fun acc scene =>
          scene.elements.foldl
            (fun acc e =>
              acc.append (collectFromElement filePath session.number scene.number e))
            acc)
        acc)
    AllTags.empty

/-! ## Concrete fixtures used by the theorems below -/

/-- A two-file host fixture: the campaign file plus one linked session
document `s1.md` reachable through link resolution. -/
def demoVault : Vault :=
  { resolve := fun linkPath _ => if linkPath = "Session 1" then some "s1.md" else none
    read := fun p => if p = "s1.md" then some "" else none }

/-- A session list holding one session with one scene whose elements
are the given text lines (numbered from 0), as produced by parsing one
fenced block; used to state claims about `collectAllTags` without
repeating the structural parse. -/
def textSceneSessions (ns : Nat) (sid : String) (contents : List String) :
    List Session :=
  [{ number := ns
     date := none
     duration := none
     recap := none
     goals := none
     scenes :=
       [{ id := sid
          number := sid
          context := none
          startLine := 0
          endLine := 0
          elements := contents.enum.map (fun p => ⟨p.1, .textLine p.2⟩) }]
     startLine := 0
     endLine := 0
     metadata := []
     linkedFile := none }]

/-- The sessions of a document whose scanned text is a single text
element with the given content and line number. -/
def singleTextSessions (ns : Nat) (sid : String) (ln : Nat) (content : String) :
    List Session :=
  [{ number := ns
     date := none
     duration := none
     recap := none
     goals := none
     scenes :=
       [{ id := sid
          number := sid
          context := none
          startLine := 0
          endLine := 0
          elements := [⟨ln, .textLine content⟩] }]
     startLine := 0
     endLine := 0
     metadata := []
     linkedFile := none }]

/-- The extractor output with no mention of any kind. -/
def ExtractedTags.empty : ExtractedTags := ⟨[], [], [], [], [], [], [], []⟩

/-! ## Helper lemmas -/

theorem isPrefixOf_eq (l1 l2 : List Char) : l1.isPrefixOf l2 = true ↔ l1 <+: l2 :=
  List.isPrefixOf_iff_prefix

theorem containsSub_iff (hay needle : List Char) :
    listContainsSub hay needle = true ↔ needle <:+: hay := by
  induction hay with
  | nil => simp [listContainsSub, List.isEmpty_iff]
  | cons c t ih =>
    rw [List.infix_cons_iff]
    simp [listContainsSub, Bool.or_eq_true, isPrefixOf_eq, ih]

theorem chars_ofChars (l : List Char) : chars (ofChars l) = l := rfl

theorem ofChars_chars (s : String) : ofChars (chars s) = s := rfl

theorem ofChars_inj {l1 l2 : List Char} (h : ofChars l1 = ofChars l2) : l1 = l2 := by
  have := congrArg chars h
  simpa [chars_ofChars] using this

theorem getTagKey_of_no_eq (tag : String) (h : (chars tag).contains '=' = false) :
    getTagKey tag = tag := by
  unfold getTagKey
  rw [h]
  simp

theorem getTagKey_ne_of_eq_mem (tag : String) (h : (chars tag).contains '=' = true) :
    getTagKey tag ≠ tag := by
  intro he
  have hk : getTagKey tag = ofChars ((chars tag).takeWhile (fun c => c ≠ '=')) := by
    unfold getTagKey
    rw [h]
    simp
  rw [hk] at he
  have hl : (chars tag).takeWhile (fun c => c ≠ '=') = chars tag := by
    have := congrArg chars he
    simpa [chars_ofChars] using this
  have hmem : '=' ∈ chars tag := by simpa using h
  have := List.takeWhile_eq_self_iff.mp hl '=' hmem
  simp at this

theorem mapGet_mapSet_self {α : Type} (m : List (String × α)) (k : String) (v : α) :
    mapGet (mapSet m k v) k = some v := by
  induction m with
  | nil => simp [mapGet, mapSet, List.find?]
  | cons p t ih =>
    by_cases h : p.1 = k
    · simp [mapSet, h, mapGet, List.find?]
    · simp [mapSet, h, mapGet, List.find?] at ih ⊢
      exact ih

theorem mapSet_mapSet {α : Type} (m : List (String × α)) (k : String) (v w : α) :
    mapSet (mapSet m k v) k w = mapSet m k w := by
  induction m with
  | nil => simp [mapSet]
  | cons p t ih =>
    by_cases h : p.1 = k
    · simp [mapSet, h]
    · simp [mapSet, h, ih]

/-! ## C1 — tag-diff merge for NPC/Location/PlayerCharacter -/

theorem applyTagDiff_removes (tags : List String) (tag : String)
    (h : jsStartsWith tag "-" = true) :
    applyTagDiff tags tag = tags.filter (fun t => t ≠ jsDrop tag 1) := by
  simp [applyTagDiff, h]

theorem applyTagDiff_keyed (tags : List String) (tag : String)
    (h1 : jsStartsWith tag "-" = false) (h2 : (chars tag).contains '=' = true) :
    applyTagDiff tags tag =
      tags.filter (fun t => getTagKey t ≠ getTagKey tag) ++ [tag] := by
  have hne := getTagKey_ne_of_eq_mem tag h2
  have hnotmem : tag ∉ tags.filter (fun t => getTagKey t ≠ getTagKey tag) := by
    intro hmem
    have := (List.mem_filter.mp hmem).2
    simp at this
  simp only [applyTagDiff, h1, Bool.false_eq_true, if_false]
  rw [if_pos hne, if_neg hnotmem]

theorem applyTagDiff_plain (tags : List String) (tag : String)
    (h1 : jsStartsWith tag "-" = false) (h2 : (chars tag).contains '=' = false) :
    applyTagDiff tags tag = if tag ∈ tags then tags else tags ++ [tag] := by
  have hk := getTagKey_of_no_eq tag h2
  simp only [applyTagDiff, h1, Bool.false_eq_true, if_false]
  rw [if_neg (show ¬getTagKey tag ≠ tag by simp [hk])]

theorem applyTagDiff_nodup (tags : List String) (tag : String) (h : tags.Nodup) :
    (applyTagDiff tags tag).Nodup := by
  by_cases h1 : jsStartsWith tag "-" = true
  · rw [applyTagDiff_removes tags tag h1]
    exact h.filter _
  · have h1' : jsStartsWith tag "-" = false := by
      cases hb : jsStartsWith tag "-" with
      | false => rfl
      | true => exact absurd hb h1
    simp only [applyTagDiff, h1', Bool.false_eq_true, if_false]
    set tags' :=
      if getTagKey tag ≠ tag then tags.filter (fun t => getTagKey t ≠ getTagKey tag)
      else tags with htags
    have hntags' : tags'.Nodup := by
      rw [htags]
      by_cases hc : getTagKey tag ≠ tag
      · rw [if_pos hc]; exact h.filter _
      · rw [if_neg hc]; exact h
    by_cases hm : tag ∈ tags'
    · rw [if_pos hm]; exact hntags'
    · rw [if_neg hm]
      rw [List.nodup_append]
      refine ⟨hntags', List.nodup_singleton tag, ?_⟩
      intro a ha hb
      simp at hb
      exact hm (hb ▸ ha)

/-- C1: merging a subsequent NPC/Location/PlayerCharacter mention
applies the three-rule tag diff — a `-`-prefixed tag removes the exact
tag (minus the prefix) from the existing list; a tag containing `=`
removes every existing tag with the same key (the text before `=`) and
appends the new tag at the end; any other tag is appended only if not
already present, so a duplicate-free tag list stays duplicate-free —
and in every case the mention's locations are appended to the entity's
mentions list. -/
theorem c1_tag_diff_merge :
    (∀ (tags : List String) (tag : String), jsStartsWith tag "-" = true →
      applyTagDiff tags tag = tags.filter (fun t => t ≠ jsDrop tag 1)) ∧
    (∀ (tags : List String) (tag : String), jsStartsWith tag "-" = false →
      (chars tag).contains '=' = true →
      applyTagDiff tags tag =
        tags.filter (fun t => getTagKey t ≠ getTagKey tag) ++ [tag]) ∧
    (∀ (tags : List String) (tag : String), jsStartsWith tag "-" = false →
      (chars tag).contains '=' = false →
      applyTagDiff tags tag = if tag ∈ tags then tags else tags ++ [tag]) ∧
    (∀ (tags : List String) (tag : String), tags.Nodup →
      (applyTagDiff tags tag).Nodup) ∧
    (∀ existing npc : NPC,
      mergeNPCInto existing npc =
        { existing with
          tags := npc.tags.foldl applyTagDiff existing.tags
          mentions := existing.mentions ++ npc.mentions }) ∧
    (∀ existing loc : LocationTag,
      mergeLocationInto existing loc =
        { existing with
          tags := loc.tags.foldl applyTagDiff existing.tags
          mentions := existing.mentions ++ loc.mentions }) ∧
    (∀ existing pc : PlayerCharacter,
      mergePlayerCharacterInto existing pc =
        { existing with
          tags := pc.tags.foldl applyTagDiff existing.tags
          mentions := existing.mentions ++ pc.mentions }) ∧
    (∀ (merged : List (String × NPC)) (npc : NPC) (existing : NPC),
      mapGet merged npc.id = some existing →
      mergeNPCStep merged npc = mapSet merged npc.id (mergeNPCInto existing npc)) :=
  ⟨applyTagDiff_removes, applyTagDiff_keyed, applyTagDiff_plain,
    applyTagDiff_nodup,
    fun _ _ => rfl, fun _ _ => rfl, fun _ _ => rfl,
    fun merged npc existing h => by simp [mergeNPCStep, h]⟩

/-- Witness for C1 at concrete inputs, including the spec's
`[N:Jonah|friendly]` then `[N:Jonah|-friendly|captured]` example. -/
theorem c1_tag_diff_merge_witness :
    applyTagDiff ["friendly"] "-friendly" = [] ∧
    applyTagDiff ["mood=sad", "armed"] "mood=happy" = ["armed", "mood=happy"] ∧
    applyTagDiff ["friendly"] "captured" = ["friendly", "captured"] ∧
    (["friendly", "captured"] : List String).foldl applyTagDiff ["friendly"] =
      ["friendly", "captured"] ∧
    (applyTagDiff ["friendly", "mood=sad"] "captured").Nodup := by
  refine ⟨?_, ?_, ?_, ?_, ?_⟩
  · exact (c1_tag_diff_merge.1 ["friendly"] "-friendly" (by decide)).trans (by decide)
  · exact (c1_tag_diff_merge.2.1 ["mood=sad", "armed"] "mood=happy" (by decide)
      (by decide)).trans (by decide)
  · exact (c1_tag_diff_merge.2.2.1 ["friendly"] "captured" (by decide)
      (by decide)).trans (by decide)
  · decide
  · exact c1_tag_diff_merge.2.2.2.1 ["friendly", "mood=sad"] "captured" (by decide)

/-! ## C7 — repeated identical mention: idempotent on tags, not on mentions -/

theorem applyTagDiff_plain_mem (cur : List String) (t : String)
    (h1 : jsStartsWith t "-" = false) (h2 : (chars t).contains '=' = false)
    (hmem : t ∈ cur) :
    applyTagDiff cur t = cur := by
  rw [applyTagDiff_plain cur t h1 h2, if_pos hmem]

theorem foldl_applyTagDiff_id (ts : List String) (cur : List String)
    (h : ∀ t ∈ ts,
      jsStartsWith t "-" = false ∧ (chars t).contains '=' = false ∧ t ∈ cur) :
    ts.foldl applyTagDiff cur = cur := by
  induction ts with
  | nil => rfl
  | cons t ts ih =>
    have ht := h t (List.mem_cons_self t ts)
    rw [List.foldl_cons, applyTagDiff_plain_mem cur t ht.1 ht.2.1 ht.2.2]
    exact ih (fun x hx => h x (List.mem_cons_of_mem t hx))

/-- C7: merging the same mention twice is idempotent on the tag list
but not on the mentions list — for a mention whose tags are plain
additive tags (no `-` removal prefix, no `=` key, no duplicates), the
canonical record after processing it twice keeps exactly the original
tag list while its mentions list is the original appended to itself. -/
theorem c7_double_merge_idempotent_tags :
    ∀ npc : NPC,
      (∀ t ∈ npc.tags,
        jsStartsWith t "-" = false ∧ (chars t).contains '=' = false) →
      npc.tags.Nodup →
      mergeNPCs [npc, npc] =
        [(npc.id, { npc with mentions := npc.mentions ++ npc.mentions })] ∧
      (mergeNPCs [npc, npc]).map
          (fun p => (p.2.tags, p.2.mentions.length)) =
        [(npc.tags, 2 * npc.mentions.length)] := by
  intro npc hplain _hnodup
  have hstep1 : mergeNPCStep [] npc = [(npc.id, npc)] := by
    simp [mergeNPCStep, mapGet, mapSet, List.find?]
  have hget : mapGet [(npc.id, npc)] npc.id = some npc := by
    simp [mapGet, List.find?]
  have htags : npc.tags.foldl applyTagDiff npc.tags = npc.tags :=
    foldl_applyTagDiff_id npc.tags npc.tags
      (fun t ht => ⟨(hplain t ht).1, (hplain t ht).2, ht⟩)
  have hmain : mergeNPCs [npc, npc] =
      [(npc.id, { npc with mentions := npc.mentions ++ npc.mentions })] := by
    show List.foldl mergeNPCStep [] [npc, npc] = _
    rw [List.foldl_cons, List.foldl_cons, List.foldl_nil, hstep1]
    simp [mergeNPCStep, hget, mergeNPCInto, htags, mapSet]
  refine ⟨hmain, ?_⟩
  rw [hmain]
  simp [Nat.two_mul]

/-- Witness for C7: the spec's `[N:Grim|friendly]` mention processed
twice yields tags `['friendly']` (no duplicate) and two mentions. -/
theorem c7_double_merge_idempotent_tags_witness :
    mergeNPCs
        [{ id := "npc:grim", name := "Grim", tags := ["friendly"],
           firstMention := ⟨"c.md", 0, "Session 1", "S1"⟩,
           mentions := [⟨"c.md", 0, "Session 1", "S1"⟩] },
         { id := "npc:grim", name := "Grim", tags := ["friendly"],
           firstMention := ⟨"c.md", 0, "Session 1", "S1"⟩,
           mentions := [⟨"c.md", 0, "Session 1", "S1"⟩] }] =
      [("npc:grim",
        { id := "npc:grim", name := "Grim", tags := ["friendly"],
          firstMention := ⟨"c.md", 0, "Session 1", "S1"⟩,
          mentions := [⟨"c.md", 0, "Session 1", "S1"⟩,
            ⟨"c.md", 0, "Session 1", "S1"⟩] })] :=
  ((c7_double_merge_idempotent_tags
      { id := "npc:grim", name := "Grim", tags := ["friendly"],
        firstMention := ⟨"c.md", 0, "Session 1", "S1"⟩,
        mentions := [⟨"c.md", 0, "Session 1", "S1"⟩] }
      (by decide) (by decide)).1).trans (by decide)

/-! ## C4 — thread state is last-write-wins -/

theorem mergeThreads_fold_single (ts : List Thread) :
    ∀ (k : String) (rec : Thread), (∀ t ∈ ts, t.id = k) →
      List.foldl mergeThreadStep [(k, rec)] ts =
        [(k, { rec with
            state := (ts.map (fun t => t.state)).getLastD rec.state
            mentions := rec.mentions ++ (ts.map (fun t => t.mentions)).flatten })] := by
  induction ts with
  | nil => intro k rec _; simp
  | cons t ts ih =>
    intro k rec h
    have hid : t.id = k := h t (List.mem_cons_self t ts)
    have hstep : mergeThreadStep [(k, rec)] t =
        [(k, { rec with state := t.state, mentions := rec.mentions ++ t.mentions })] := by
      simp [mergeThreadStep, hid, mapGet, List.find?, mapSet]
    rw [List.foldl_cons, hstep,
      ih k { rec with state := t.state, mentions := rec.mentions ++ t.mentions }
        (fun x hx => h x (List.mem_cons_of_mem t hx))]
    simp only [List.map_cons, List.getLastD_cons, List.flatten_cons, List.append_assoc]

theorem sum_mentions_one (l : List Thread)
    (h : ∀ t ∈ l, t.mentions.length = 1) :
    ((l.map (fun t => t.mentions)).map List.length).sum = l.length := by
  induction l with
  | nil => simp
  | cons t ts ih =>
    simp only [List.map_cons, List.sum_cons, List.length_cons]
    rw [h t (List.mem_cons_self t ts), ih (fun x hx => h x (List.mem_cons_of_mem t hx))]
    omega

/-- C4: for a thread identity key mentioned more than once, the
canonical record's state is the state of the last mention in document
order (last-write-wins, no diffing), and its mentions list is the
concatenation of every mention's locations — one location per mention
when each raw mention carries a single location. -/
theorem c4_thread_last_write_wins :
    ∀ (a : Thread) (rest : List Thread),
      (∀ t ∈ rest, t.id = a.id) →
      mergeThreads (a :: rest) =
        [(a.id, { a with
            state := (rest.map (fun t => t.state)).getLastD a.state
            mentions := a.mentions ++ (rest.map (fun t => t.mentions)).flatten })] ∧
      ((∀ t ∈ a :: rest, t.mentions.length = 1) →
        (mergeThreads (a :: rest)).map (fun p => p.2.mentions.length) =
          [(a :: rest).length]) := by
  intro a rest h
  have hstep0 : mergeThreadStep [] a = [(a.id, a)] := by
    simp [mergeThreadStep, mapGet, List.find?, mapSet]
  have hmain : mergeThreads (a :: rest) =
      [(a.id, { a with
          state := (rest.map (fun t => t.state)).getLastD a.state
          mentions := a.mentions ++ (rest.map (fun t => t.mentions)).flatten })] := by
    show List.foldl mergeThreadStep [] (a :: rest) = _
    rw [List.foldl_cons, hstep0, mergeThreads_fold_single rest a.id a h]
  refine ⟨hmain, fun hone => ?_⟩
  rw [hmain]
  simp only [List.map_cons, List.map_nil, List.length_append, List.length_flatten,
    List.length_cons]
  rw [hone a (List.mem_cons_self a rest),
    sum_mentions_one rest (fun x hx => hone x (List.mem_cons_of_mem a hx)),
    Nat.add_comm]

/-- Witness for C4: `[Thread:X|Open]` then `[Thread:X|Closed]` yield
state `Closed` and two mentions. -/
theorem c4_thread_last_write_wins_witness :
    mergeThreads
        [{ id := "thread:x", name := "X", state := "Open",
           firstMention := ⟨"c.md", 0, "Session 1", "S1"⟩,
           mentions := [⟨"c.md", 0, "Session 1", "S1"⟩] },
         { id := "thread:x", name := "X", state := "Closed",
           firstMention := ⟨"c.md", 1, "Session 1", "S1"⟩,
           mentions := [⟨"c.md", 1, "Session 1", "S1"⟩] }] =
      [("thread:x",
        { id := "thread:x", name := "X", state := "Closed",
          firstMention := ⟨"c.md", 0, "Session 1", "S1"⟩,
          mentions := [⟨"c.md", 0, "Session 1", "S1"⟩,
            ⟨"c.md", 1, "Session 1", "S1"⟩] })] :=
  ((c4_thread_last_write_wins
      { id := "thread:x", name := "X", state := "Open",
        firstMention := ⟨"c.md", 0, "Session 1", "S1"⟩,
        mentions := [⟨"c.md", 0, "Session 1", "S1"⟩] }
      [{ id := "thread:x", name := "X", state := "Closed",
         firstMention := ⟨"c.md", 1, "Session 1", "S1"⟩,
         mentions := [⟨"c.md", 1, "Session 1", "S1"⟩] }]
      (by decide)).1).trans (by decide)

/-! ## C9 — calculateProgress is total, clamped and zero-safe -/

/-- C9: `calculateProgress` is a total function whose result is always
between 0 and 100; a zero total returns 0 (so `calculateProgress 0 0 = 0`
and no division by zero can occur), and for a current value within the
total the result is exactly the round-to-nearest integer percentage. -/
theorem c9_calculate_progress_safe :
    (∀ current total : Nat, calculateProgress current total ≤ 100) ∧
    (∀ current total : Nat, total = 0 → calculateProgress current total = 0) ∧
    calculateProgress 0 0 = 0 ∧
    (∀ current total : Nat, total ≠ 0 → current ≤ total →
      calculateProgress current total = (200 * current + total) / (2 * total)) := by
  refine ⟨?_, ?_, rfl, ?_⟩
  · intro current total
    unfold calculateProgress
    by_cases h : total = 0
    · simp [h]
    · rw [if_neg h]
      exact Nat.min_le_left 100 _
  · intro current total h
    simp [calculateProgress, h]
  · intro current total h hle
    unfold calculateProgress
    rw [if_neg h]
    have hlt : (200 * current + total) / (2 * total) ≤ 100 := by
      rw [Nat.div_le_iff_le_mul_add_pred (by omega)]
      omega
    omega

/-- Witness for C9 at concrete inputs: the zero-total and boundary
cases. -/
theorem c9_calculate_progress_safe_witness :
    calculateProgress 0 0 = 0 ∧
    calculateProgress 3 4 ≤ 100 ∧
    calculateProgress 3 4 = 75 ∧
    calculateProgress 1 3 = 33 :=
  ⟨c9_calculate_progress_safe.2.1 0 0 rfl,
    c9_calculate_progress_safe.1 3 4,
    (c9_calculate_progress_safe.2.2.2 3 4 (by decide) (by decide)).trans (by decide),
    (c9_calculate_progress_safe.2.2.2 1 3 (by decide) (by decide)).trans (by decide)⟩

/-! ## C8 — empty-name tags are silently skipped -/

theorem parseNameTags_name_ne_nil {inner : List Char} {p : List Char × List String}
    (h : parseNameTags inner = some p) : p.1 ≠ [] := by
  unfold parseNameTags at h
  cases hs : splitOnChar '|' inner with
  | nil => rw [hs] at h; exact absurd h (by simp)
  | cons nameRaw tagParts =>
    rw [hs] at h
    dsimp only at h
    by_cases hn : trimChars nameRaw = []
    · rw [if_pos hn] at h; exact absurd h (by simp)
    · rw [if_neg hn] at h
      have := Option.some.inj h
      intro hnil
      rw [← this] at hnil
      exact hn hnil

/-- C8: a bracketed tag whose name part is empty after trimming yields
no entity mention of any kind and raises no error — the concrete
malformed input `[N:] [L:] [Thread:]` extracts nothing whatever the
source location, every extracted NPC always has a nonempty name, and
extraction of the surrounding text still succeeds (a well-formed tag
after a malformed one is extracted). -/
theorem c8_empty_name_tags_skipped :
    (∀ loc : Location, extractTags "[N:] [L:] [Thread:]" loc = ExtractedTags.empty) ∧
    extractReferences "[N:] [L:] [Thread:]" = [] ∧
    (∀ (content : String) (loc : Location),
      ∀ n ∈ extractNPCs content loc, n.name ≠ "") ∧
    (∀ loc : Location,
      (extractNPCs "[N:] [N:Grim]" loc).map (fun n => n.name) = ["Grim"]) := by
  refine ⟨fun loc => rfl, rfl, ?_, fun loc => rfl⟩
  intro content loc n hn
  obtain ⟨inner, _, hf⟩ := List.mem_filterMap.mp hn
  cases hp : parseNameTags inner with
  | none => rw [hp] at hf; exact absurd hf (by simp)
  | some p =>
    rw [hp] at hf
    have hgp : _ = n := Option.some.inj hf
    have hne := parseNameTags_name_ne_nil hp
    intro hname
    rw [← hgp] at hname
    dsimp only at hname
    exact hne (ofChars_inj (hname.trans rfl))

/-- Witness for C8: the membership hypothesis discharged on a concrete
extraction. -/
theorem c8_empty_name_tags_skipped_witness :
    ∃ n : NPC,
      n ∈ extractNPCs "[N:Grim]" ⟨"c.md", 0, "Session 1", "S1"⟩ ∧ n.name ≠ "" := by
  refine ⟨(extractNPCs "[N:Grim]" ⟨"c.md", 0, "Session 1", "S1"⟩).head (by decide),
    ?_, ?_⟩
  · exact List.head_mem _
  · exact c8_empty_name_tags_skipped.2.2.1 "[N:Grim]" ⟨"c.md", 0, "Session 1", "S1"⟩
      _ (List.head_mem _)

/-! ## C3 — identity keys: case-insensitive for entities, but not for
references -/

/-- Counterexample to C3: the reference kind does NOT merge
case-insensitively.  `collectAllTags` stores the case-preserved name as
the reference id (NotationParser.ts line 489) and `mergeReferences`
keys on `type:id` (line 664), so the back-references `[#N:Grim]` and
`[#N:grim]` produce two distinct canonical reference records instead of
the single one the claim requires. -/
theorem c3_case_key_counterexample :
    (mergeReferences
        (collectAllTags (textSceneSessions 1 "S1" ["[#N:Grim]", "[#N:grim]"])
          "c.md").references).map (fun p => p.1) = ["npc:Grim", "npc:grim"] ∧
    ("npc:Grim" : String) ≠ "npc:grim" ∧
    (mergeReferences
        (collectAllTags (textSceneSessions 1 "S1" ["[#N:Grim]", "[#N:grim]"])
          "c.md").references).length = 2 := by
  refine ⟨by decide, by decide, by decide⟩

/-! ## C5 — a pure back-reference synthesizes a canonical entity -/

theorem extractReferences_empty : extractReferences "" = [] := rfl

theorem collectAllTags_singleText (fp sid content : String) (ns ln : Nat)
    (hc : content ≠ "")
    (htags : extractTags content ⟨fp, ln, "Session " ++ natStr ns, sid⟩ =
      ExtractedTags.empty)
    (hrefs : extractReferences content = [⟨RefType.npc, "Shadow"⟩]) :
    collectAllTags (singleTextSessions ns sid ln content) fp =
      { npcs := [refToNPC ⟨RefType.npc, "Shadow"⟩ ⟨fp, ln, "Session " ++ natStr ns, sid⟩]
        locations := []
        threads := []
        clocks := []
        tracks := []
        timers := []
        events := []
        playerCharacters := []
        references :=
          [refToReference ⟨RefType.npc, "Shadow"⟩
            ⟨fp, ln, "Session " ++ natStr ns, sid⟩] } := by
  show AllTags.empty.append (collectFromElement fp ns sid ⟨ln, .textLine content⟩) = _
  unfold collectFromElement
  dsimp only [elementScanText]
  rw [if_neg hc, htags, hrefs]
  simp [AllTags.append, AllTags.empty, ExtractedTags.empty]

theorem collectAllTags_singleTextLoc (fp sid content : String) (ns ln : Nat)
    (hc : content ≠ "")
    (htags : extractTags content ⟨fp, ln, "Session " ++ natStr ns, sid⟩ =
      ExtractedTags.empty)
    (hrefs : extractReferences content = [⟨RefType.location, "Shadow"⟩]) :
    collectAllTags (singleTextSessions ns sid ln content) fp =
      { npcs := []
        locations :=
          [refToLocation ⟨RefType.location, "Shadow"⟩
            ⟨fp, ln, "Session " ++ natStr ns, sid⟩]
        threads := []
        clocks := []
        tracks := []
        timers := []
        events := []
        playerCharacters := []
        references :=
          [refToReference ⟨RefType.location, "Shadow"⟩
            ⟨fp, ln, "Session " ++ natStr ns, sid⟩] } := by
  show AllTags.empty.append (collectFromElement fp ns sid ⟨ln, .textLine content⟩) = _
  unfold collectFromElement
  dsimp only [elementScanText]
  rw [if_neg hc, htags, hrefs]
  simp [AllTags.append, AllTags.empty, ExtractedTags.empty]

/-- C5: a document whose scanned text contains only the back-reference
`[#N:Shadow]` and no forward tag yields a canonical NPC entry under
the key `npc:shadow` with an empty tag list and exactly one mention, in
addition to the Reference record itself; symmetrically a `[#L:...]`
back-reference synthesizes a Location entry. -/
theorem c5_backref_creates_entity :
    (∀ (fp sid content : String) (ns ln : Nat),
      extractTags content ⟨fp, ln, "Session " ++ natStr ns, sid⟩ =
        ExtractedTags.empty →
      extractReferences content = [⟨RefType.npc, "Shadow"⟩] →
      mapGet
          (mergeNPCs
            (collectAllTags (singleTextSessions ns sid ln content) fp).npcs)
          "npc:shadow" =
        some
          { id := "npc:shadow", name := "Shadow", tags := []
            firstMention := ⟨fp, ln, "Session " ++ natStr ns, sid⟩
            mentions := [⟨fp, ln, "Session " ++ natStr ns, sid⟩] } ∧
      (mergeReferences
          (collectAllTags (singleTextSessions ns sid ln content) fp).references).map
          (fun p => (p.1, p.2.mentions.length)) = [("npc:Shadow", 1)]) ∧
    (∀ (fp sid content : String) (ns ln : Nat),
      extractTags content ⟨fp, ln, "Session " ++ natStr ns, sid⟩ =
        ExtractedTags.empty →
      extractReferences content = [⟨RefType.location, "Shadow"⟩] →
      mapGet
          (mergeLocations
            (collectAllTags (singleTextSessions ns sid ln content) fp).locations)
          "location:shadow" =
        some
          { id := "location:shadow", name := "Shadow", tags := []
            firstMention := ⟨fp, ln, "Session " ++ natStr ns, sid⟩
            mentions := [⟨fp, ln, "Session " ++ natStr ns, sid⟩] } ∧
      (mergeReferences
          (collectAllTags (singleTextSessions ns sid ln content) fp).references).map
          (fun p => (p.1, p.2.mentions.length)) = [("location:Shadow", 1)]) := by
  constructor
  · intro fp sid content ns ln htags hrefs
    have hc : content ≠ "" := by
      intro hz
      rw [hz, extractReferences_empty] at hrefs
      exact absurd hrefs (by simp)
    rw [collectAllTags_singleText fp sid content ns ln hc htags hrefs]
    exact ⟨rfl, rfl⟩
  · intro fp sid content ns ln htags hrefs
    have hc : content ≠ "" := by
      intro hz
      rw [hz, extractReferences_empty] at hrefs
      exact absurd hrefs (by simp)
    rw [collectAllTags_singleTextLoc fp sid content ns ln hc htags hrefs]
    exact ⟨rfl, rfl⟩

/-- Witness for C5: the concrete documents `[#N:Shadow]` and
`[#L:Shadow]`. -/
theorem c5_backref_creates_entity_witness :
    mapGet
        (mergeNPCs
          (collectAllTags (singleTextSessions 1 "S1" 0 "[#N:Shadow]") "c.md").npcs)
        "npc:shadow" =
      some
        { id := "npc:shadow", name := "Shadow", tags := []
          firstMention := ⟨"c.md", 0, "Session " ++ natStr 1, "S1"⟩
          mentions := [⟨"c.md", 0, "Session " ++ natStr 1, "S1"⟩] } ∧
    mapGet
        (mergeLocations
          (collectAllTags (singleTextSessions 1 "S1" 0 "[#L:Shadow]") "c.md").locations)
        "location:shadow" =
      some
        { id := "location:shadow", name := "Shadow", tags := []
          firstMention := ⟨"c.md", 0, "Session " ++ natStr 1, "S1"⟩
          mentions := [⟨"c.md", 0, "Session " ++ natStr 1, "S1"⟩] } :=
  ⟨(c5_backref_creates_entity.1 "c.md" "S1" "[#N:Shadow]" 1 0 (by decide) (by decide)).1,
    (c5_backref_creates_entity.2 "c.md" "S1" "[#L:Shadow]" 1 0 (by decide) (by decide)).1⟩

/-! ## C2 — session ordering -/

theorem mem_insertByNumber {s x : Session} {l : List Session} :
    x ∈ insertByNumber s l ↔ x = s ∨ x ∈ l := by
  induction l with
  | nil => simp [insertByNumber]
  | cons t ts ih =>
    by_cases h : s.number < t.number
    · simp [insertByNumber, h]
    · simp [insertByNumber, h, ih]
      tauto

theorem pairwise_insertByNumber {s : Session} {l : List Session}
    (h : l.Pairwise (fun a b => a.number ≤ b.number)) :
    (insertByNumber s l).Pairwise (fun a b => a.number ≤ b.number) := by
  induction l with
  | nil => simp [insertByNumber]
  | cons t ts ih =>
    obtain ⟨h1, h2⟩ := List.pairwise_cons.mp h
    by_cases hlt : s.number < t.number
    · simp only [insertByNumber, if_pos hlt]
      refine List.pairwise_cons.mpr ⟨?_, h⟩
      intro x hx
      rcases List.mem_cons.mp hx with hx | hx
      · rw [hx]; omega
      · have := h1 x hx; omega
    · simp only [insertByNumber, if_neg hlt]
      refine List.pairwise_cons.mpr ⟨?_, ih h2⟩
      intro x hx
      rcases mem_insertByNumber.mp hx with hx | hx
      · rw [hx]; omega
      · exact h1 x hx

theorem pairwise_sortSessionsFold (l : List Session) :
    ∀ acc : List Session, acc.Pairwise (fun a b => a.number ≤ b.number) →
      (l.foldl (fun acc s => insertByNumber s acc) acc).Pairwise
        (fun a b => a.number ≤ b.number) := by
  induction l with
  | nil => intro acc h; exact h
  | cons s ss ih =>
    intro acc h
    exact ih (insertByNumber s acc) (pairwise_insertByNumber h)

theorem pairwise_sortSessions (l : List Session) :
    (sortSessionsByNumber l).Pairwise (fun a b => a.number ≤ b.number) :=
  pairwise_sortSessionsFold l [] (List.Pairwise.nil)

/-- Counterexample to C2: an inline `## Session 2` appearing textually
before a resolvable linked `[[Session 1]]` does NOT yield `[1, 2]` —
the link is checked only while no inline session is open
(NotationParser.ts lines 105-107), and the inline session opened at the
heading never closes before the end of the document, so the linked
session is dropped and the result is `[2]`. -/
theorem c2_session_order_counterexample :
    demoVault.resolve "Session 1" "c.md" = some "s1.md" ∧
    demoVault.read "s1.md" = some "" ∧
    (parseSessions demoVault "## Session 2\n[[Session 1]]" "c.md").map
      (fun s => s.number) = [2] ∧
    ([2] : List Nat) ≠ [1, 2] :=
  ⟨rfl, rfl, by decide, by decide⟩

/-- C2 (amended): the sessions list of every parse is sorted ascending
by session number — a final stable reordering independent of discovery
order — and a linked "Session 1" appearing textually before an inline
"Session 2" yields the sequence `[1, 2]`; however a session link
encountered after an inline session heading is ignored (the inline
session is still open), so the claim's inline-before-linked example
yields `[2]` instead of `[1, 2]`. -/
theorem c2_sessions_sorted_amended :
    (∀ (vault : Vault) (content filePath : String),
      (parseSessions vault content filePath).Pairwise
        (fun a b => a.number ≤ b.number)) ∧
    (parseSessions demoVault "[[Session 1]]\n## Session 2" "c.md").map
        (fun s => s.number) = [1, 2] ∧
    (parseSessions demoVault "[[Session 1]]\n## Session 2" "c.md").Pairwise
      (fun a b => a.number ≤ b.number) := by
  refine ⟨?_, by decide, ?_⟩
  · intro vault content filePath
    exact pairwise_sortSessions _
  · exact pairwise_sortSessions _

/-! ## C10 — an unterminated code fence contributes no elements -/

theorem fenceLoop_append (base : Nat) (xs : List String) :
    ∀ (ys : List String) (i : Nat) (st : FenceState),
      fenceLoop base i st (xs ++ ys) =
        fenceLoop base (i + xs.length) (fenceLoop base i st xs) ys := by
  induction xs with
  | nil => intro ys i st; simp [fenceLoop]
  | cons x xs ih =>
    intro ys i st
    show fenceLoop base (i + 1) (fenceStep base st i x) (xs ++ ys) = _
    rw [ih ys (i + 1) (fenceStep base st i x)]
    have : i + 1 + xs.length = i + (x :: xs).length := by simp; omega
    rw [this]
    rfl

theorem fenceStep_inCodeBlock_of_not_fence (base : Nat) (st : FenceState)
    (i : Nat) (line : String) (h : jsTrim line ≠ "```") :
    (fenceStep base st i line).inCodeBlock = st.inCodeBlock := by
  unfold fenceStep
  rw [if_neg h]
  by_cases hc : st.inCodeBlock
  · rw [if_pos hc]
  · rw [if_neg hc]

theorem fenceLoop_elements_of_open (base : Nat) (ss : List String)
    (h : ∀ s ∈ ss, jsTrim s ≠ "```") :
    ∀ (i : Nat) (st : FenceState), st.inCodeBlock = true →
      (fenceLoop base i st ss).elements = st.elements := by
  induction ss with
  | nil => intro i st _; rfl
  | cons s t ih =>
    intro i st hopen
    have hs := h s (List.mem_cons_self s t)
    show (fenceLoop base (i + 1) (fenceStep base st i s) t).elements = st.elements
    have hstep : fenceStep base st i s = { st with codeBlockContent := st.codeBlockContent ++ [s] } := by
      unfold fenceStep
      rw [if_neg hs, if_pos hopen]
    rw [hstep]
    exact ih (fun x hx => h x (List.mem_cons_of_mem s hx)) (i + 1) _ hopen

theorem fenceLoop_inCodeBlock_parity (base : Nat) (ls : List String) :
    ∀ (i : Nat) (st : FenceState),
      (fenceLoop base i st ls).inCodeBlock =
        if ls.countP (fun s => jsTrim s = "```") % 2 = 0 then st.inCodeBlock
        else !st.inCodeBlock := by
  induction ls with
  | nil => intro i st; simp [fenceLoop]
  | cons s t ih =>
    intro i st
    show (fenceLoop base (i + 1) (fenceStep base st i s) t).inCodeBlock = _
    rw [ih (i + 1) (fenceStep base st i s)]
    by_cases hs : jsTrim s = "```"
    · have hcount : (s :: t).countP (fun x => jsTrim x = "```") =
          t.countP (fun x => jsTrim x = "```") + 1 := by
        rw [List.countP_cons]
        simp [hs]
      have hstep : (fenceStep base st i s).inCodeBlock = !st.inCodeBlock := by
        unfold fenceStep
        rw [if_pos hs]
        cases hb : st.inCodeBlock with
        | true => simp [hb]
        | false => simp [hb]
      rw [hstep, hcount]
      by_cases hp : t.countP (fun x => jsTrim x = "```") % 2 = 0
      · rw [if_pos hp, if_neg (by omega)]
      · rw [if_neg hp, if_pos (by omega)]
        simp
    · have hcount : (s :: t).countP (fun x => jsTrim x = "```") =
          t.countP (fun x => jsTrim x = "```") := by
        rw [List.countP_cons]
        simp [hs]
      rw [fenceStep_inCodeBlock_of_not_fence base st i s hs, hcount]

/-- C10: when a scene's lines contain an opening triple-backtick fence
with no matching closing fence before the end of the scene, the lines
after that opening fence contribute no elements — the scan's output
equals the output for the lines before the fence, so the unterminated
block's content is silently dropped. -/
theorem c10_unterminated_fence_dropped :
    ∀ (ls ss : List String) (base : Nat),
      (∀ s ∈ ss, jsTrim s ≠ "```") →
      ls.countP (fun s => jsTrim s = "```") % 2 = 0 →
      parseSceneContentLines (ls ++ "```" :: ss) base =
        parseSceneContentLines ls base := by
  intro ls ss base hss hpar
  unfold parseSceneContentLines
  rw [fenceLoop_append base ls ("```" :: ss) 0 ⟨[], false, [], 0⟩]
  have hopen0 : (fenceLoop base 0 ⟨[], false, [], 0⟩ ls).inCodeBlock = false := by
    rw [fenceLoop_inCodeBlock_parity base ls 0 ⟨[], false, [], 0⟩, if_pos hpar]
  set stL := fenceLoop base 0 ⟨[], false, [], 0⟩ ls with hstL
  show (fenceLoop base (0 + ls.length) stL ("```" :: ss)).elements = stL.elements
  have hstep : fenceStep base stL (0 + ls.length) "```" =
      { stL with inCodeBlock := true, codeBlockStartLine := 0 + ls.length + 1 } := by
    unfold fenceStep
    rw [if_pos (by decide : jsTrim "```" = "```")]
    rw [if_neg (by rw [hopen0]; exact Bool.false_ne_true)]
  show (fenceLoop base (0 + ls.length + 1)
      (fenceStep base stL (0 + ls.length) "```") ss).elements = stL.elements
  rw [hstep]
  exact fenceLoop_elements_of_open base ss hss _ _ rfl

/-- Witness for C10: a scene with one complete fenced block followed by
an unterminated fence; the dangling block's line is dropped. -/
theorem c10_unterminated_fence_dropped_witness :
    parseSceneContentLines ["```", "> kept", "```", "```", "> dropped"] 0 =
      parseSceneContentLines ["```", "> kept", "```"] 0 ∧
    parseSceneContentLines ["```", "> kept", "```", "```", "> dropped"] 0 =
      [⟨1, .action "kept"⟩] :=
  ⟨c10_unterminated_fence_dropped ["```", "> kept", "```"] ["> dropped"] 0
      (by decide) (by decide),
    (c10_unterminated_fence_dropped ["```", "> kept", "```"] ["> dropped"] 0
      (by decide) (by decide)).trans (by decide)⟩

/-! ## C6 — string lemmas for the mechanics-roll line -/

theorem chars_append (a b : String) : chars (a ++ b) = chars a ++ chars b := by
  cases a
  cases b
  rfl

theorem trimChars_length_le (l : List Char) : (trimChars l).length ≤ l.length := by
  unfold trimChars
  rw [List.length_reverse]
  calc ((l.dropWhile wsChar).reverse.dropWhile wsChar).length
      ≤ (l.dropWhile wsChar).reverse.length :=
        (List.dropWhile_sublist wsChar).length_le
    _ = (l.dropWhile wsChar).length := List.length_reverse _
    _ ≤ l.length := (List.dropWhile_sublist wsChar).length_le

theorem trimChars_cons_ws {c : Char} (h : wsChar c = true) (l : List Char) :
    trimChars (c :: l) = trimChars l := by
  unfold trimChars
  rw [List.dropWhile_cons_of_pos h]

theorem head_not_ws_of_trimmed {d : Char} {t : List Char}
    (hx : trimChars (d :: t) = d :: t) : wsChar d = false := by
  cases hw : wsChar d with
  | false => rfl
  | true =>
    have h1 : trimChars (d :: t) = trimChars t := trimChars_cons_ws hw t
    have h2 := trimChars_length_le t
    rw [hx] at h1
    have := congrArg List.length h1
    simp at this
    omega

theorem last_not_ws_of_trimmed {l : List Char} (hx : trimChars l = l) :
    ∀ c, l.getLast? = some c → wsChar c = false := by
  intro c hc
  cases hw : wsChar c with
  | false => rfl
  | true =>
    exfalso
    have hlen := congrArg List.length hx
    cases hd : l.dropWhile wsChar with
    | nil =>
      have : trimChars l = [] := by unfold trimChars; rw [hd]; rfl
      rw [hx] at this
      rw [this] at hc
      simp at hc
    | cons d t =>
      have hsfx : l.dropWhile wsChar <:+ l := List.dropWhile_suffix wsChar
      obtain ⟨pre, hpre⟩ := hsfx
      have hlast : (l.dropWhile wsChar).getLast? = some c := by
        rw [← hpre] at hc
        rw [List.getLast?_append] at hc
        rw [hd] at hc ⊢
        cases hlg : (d :: t).getLast? with
        | none => simp at hlg
        | some x =>
          rw [hlg] at hc
          simp at hc
          rw [hc]
      have hhead : (l.dropWhile wsChar).reverse.head? = some c := by
        rw [List.head?_reverse]
        exact hlast
      have hdrop2 :
          ((l.dropWhile wsChar).reverse.dropWhile wsChar).length <
            (l.dropWhile wsChar).reverse.length := by
        cases hr : (l.dropWhile wsChar).reverse with
        | nil => rw [hr] at hhead; simp at hhead
        | cons r rs =>
          rw [hr] at hhead
          simp at hhead
          rw [List.dropWhile_cons_of_pos (hhead ▸ hw)]
          have := (List.dropWhile_sublist (l := rs) wsChar).length_le
          simp
          omega
      have hle1 : (trimChars l).length < (l.dropWhile wsChar).length := by
        unfold trimChars
        rw [List.length_reverse]
        rw [List.length_reverse] at hdrop2
        exact hdrop2
      have hle2 : (l.dropWhile wsChar).length ≤ l.length :=
        (List.dropWhile_sublist wsChar).length_le
      omega

theorem trimChars_eq_self (l : List Char)
    (hh : ∀ c, l.head? = some c → wsChar c = false)
    (hl : ∀ c, l.getLast? = some c → wsChar c = false) :
    trimChars l = l := by
  have h1 : l.dropWhile wsChar = l := by
    cases l with
    | nil => rfl
    | cons d t =>
      exact List.dropWhile_cons_of_neg (by simp [hh d rfl])
  have h2 : l.reverse.dropWhile wsChar = l.reverse := by
    cases hr : l.reverse with
    | nil => rfl
    | cons r rs =>
      have : l.getLast? = some r := by
        rw [← List.head?_reverse, hr]
        rfl
      exact List.dropWhile_cons_of_neg (by simp [hl r this])
  unfold trimChars
  rw [h1, h2, List.reverse_reverse]

theorem trimChars_append_ws_of_trimmed {x : List Char} (hx : trimChars x = x) :
    trimChars (x ++ [' ']) = x := by
  cases x with
  | nil => decide
  | cons d t =>
    have hd := head_not_ws_of_trimmed hx
    unfold trimChars
    rw [show (d :: t) ++ [' '] = d :: (t ++ [' ']) from rfl]
    rw [List.dropWhile_cons_of_neg (by simp [hd])]
    rw [show d :: (t ++ [' ']) = (d :: t) ++ [' '] from rfl]
    rw [List.reverse_append]
    rw [show ([' '] : List Char).reverse ++ (d :: t).reverse =
      ' ' :: (d :: t).reverse from rfl]
    rw [List.dropWhile_cons_of_pos (by decide)]
    conv_rhs => rw [← hx]
    unfold trimChars
    rw [List.dropWhile_cons_of_neg (by simp [hd])]

theorem splitOnChar_no_sep {sep : Char} {l : List Char} (h : sep ∉ l) :
    splitOnChar sep l = [l] := by
  induction l with
  | nil => rfl
  | cons c t ih =>
    have hc : ¬c = sep := fun he => h (he ▸ List.mem_cons_self c t)
    have ht : sep ∉ t := fun hm => h (List.mem_cons_of_mem c hm)
    unfold splitOnChar
    rw [if_neg hc, ih ht]

theorem isPrefixOf_arrow_two (c d : Char) (t : List Char) :
    List.isPrefixOf (chars "=>") (c :: d :: t) = (('=' == c) && ('>' == d)) := by
  show (('=' == c) && (('>' == d) && List.isPrefixOf [] t)) = _
  simp [List.isPrefixOf]

theorem isPrefixOf_arrow_one (c : Char) :
    List.isPrefixOf (chars "=>") [c] = false := by
  show (('=' == c) && List.isPrefixOf ['>'] []) = false
  simp [List.isPrefixOf]

theorem containsSub_arrow_snoc_space {m : List Char}
    (h : listContainsSub m (chars "=>") = false) :
    listContainsSub (m ++ [' ']) (chars "=>") = false := by
  induction m with
  | nil => decide
  | cons c t ih =>
    simp only [listContainsSub, Bool.or_eq_false_iff] at h
    obtain ⟨h1, h2⟩ := h
    simp only [List.cons_append, listContainsSub, Bool.or_eq_false_iff]
    refine ⟨?_, ih h2⟩
    cases t with
    | nil =>
      simp only [List.nil_append]
      rw [isPrefixOf_arrow_two c ' ' []]
      simp [show ('>' == ' ') = false from by decide]
    | cons d t' =>
      simp only [List.cons_append]
      rw [isPrefixOf_arrow_two c d (t' ++ [' '])]
      rw [isPrefixOf_arrow_two c d t'] at h1
      exact h1

theorem containsSub_arrow_cons_space {m : List Char}
    (h : listContainsSub m (chars "=>") = false) :
    listContainsSub (' ' :: m) (chars "=>") = false := by
  simp only [listContainsSub, Bool.or_eq_false_iff]
  refine ⟨?_, h⟩
  cases m with
  | nil => decide
  | cons d t =>
    rw [isPrefixOf_arrow_two ' ' d t]
    simp [show ('=' == ' ') = false from by decide]

theorem splitAtSub_arrow_append {m : List Char} (rest : List Char)
    (h : listContainsSub m (chars "=>") = false) :
    splitAtSub (m ++ '=' :: '>' :: rest) (chars "=>") = some (m, rest) := by
  induction m with
  | nil =>
    simp only [List.nil_append]
    unfold splitAtSub
    rw [if_pos (by rw [isPrefixOf_arrow_two '=' '>' rest]; simp)]
    rfl
  | cons c t ih =>
    simp only [listContainsSub, Bool.or_eq_false_iff] at h
    obtain ⟨h1, h2⟩ := h
    have hpre : List.isPrefixOf (chars "=>") (c :: (t ++ '=' :: '>' :: rest)) = false := by
      cases t with
      | nil =>
        simp only [List.nil_append]
        rw [isPrefixOf_arrow_two c '=' ('>' :: rest)]
        simp [show ('>' == '=') = false from by decide]
      | cons d t' =>
        simp only [List.cons_append]
        rw [isPrefixOf_arrow_two c d (t' ++ '=' :: '>' :: rest)]
        rw [isPrefixOf_arrow_two c d t'] at h1
        exact h1
    show splitAtSub (c :: (t ++ '=' :: '>' :: rest)) (chars "=>") = _
    unfold splitAtSub
    rw [if_neg (by simp [hpre])]
    rw [ih h2]
    rfl

theorem glyph_checks (R : List Char) :
    (List.isPrefixOf (chars "▶") ('d' :: R) || List.isPrefixOf (chars ">") ('d' :: R)) =
      false := by
  show ((('▶' == 'd') && List.isPrefixOf [] R) ||
    (('>' == 'd') && List.isPrefixOf [] R)) = false
  simp [show ('▶' == 'd') = false from by decide,
    show ('>' == 'd') = false from by decide]

theorem qm_check (R : List Char) : List.isPrefixOf (chars "?") ('d' :: R) = false := by
  show (('?' == 'd') && List.isPrefixOf [] R) = false
  simp [show ('?' == 'd') = false from by decide]

theorem dcolon_check (R : List Char) :
    List.isPrefixOf (chars "d:") ('d' :: ':' :: R) = true := by
  show (('d' == 'd') && ((':' == ':') && List.isPrefixOf [] R)) = true
  simp [List.isPrefixOf]

theorem classifyLine_mechanics (roll outcome : String) (n : Nat)
    (hroll : trimChars (chars roll) = chars roll)
    (houtcome : trimChars (chars outcome) = chars outcome)
    (hone : outcome ≠ "")
    (harrow : listContainsSub (chars roll) (chars "=>") = false) :
    classifyLine ("d: " ++ roll ++ " => " ++ outcome) n =
      some ⟨n, .mechanicsRoll roll outcome (determineSuccess outcome)⟩ := by
  have hoc : chars outcome ≠ [] := by
    intro hnil
    exact hone (by rw [← ofChars_chars outcome, hnil]; rfl)
  have hgrp : chars ("d: " ++ roll ++ " => " ++ outcome) =
      (chars "d: " ++ chars roll ++ chars " => ") ++ chars outcome := by
    simp [chars_append]
  have hcons : chars ("d: " ++ roll ++ " => " ++ outcome) =
      'd' :: ':' :: ' ' :: (chars roll ++ (' ' :: '=' :: '>' :: ' ' :: chars outcome)) := by
    rw [hgrp]
    show (('d' :: ':' :: ' ' :: chars roll) ++ (' ' :: '=' :: '>' :: [' '])) ++
        chars outcome = _
    simp
  have hL : trimChars (chars ("d: " ++ roll ++ " => " ++ outcome)) =
      'd' :: ':' :: ' ' :: (chars roll ++ (' ' :: '=' :: '>' :: ' ' :: chars outcome)) := by
    rw [hcons]
    apply trimChars_eq_self
    · intro c hc
      simp at hc
      rw [← hc]
      decide
    · intro c hc
      rw [show 'd' :: ':' :: ' ' :: (chars roll ++ (' ' :: '=' :: '>' :: ' ' :: chars outcome)) =
        ('d' :: ':' :: ' ' :: chars roll ++ [' ', '=', '>', ' ']) ++ chars outcome
        from by simp] at hc
      rw [List.getLast?_append] at hc
      cases hlg : (chars outcome).getLast? with
      | none =>
        rw [List.getLast?_eq_none_iff] at hlg
        exact absurd hlg hoc
      | some x =>
        rw [hlg] at hc
        simp at hc
        subst hc
        exact last_not_ws_of_trimmed houtcome x hlg
  unfold classifyLine
  rw [hL]
  rw [if_neg (by simp)]
  rw [if_neg (by rw [glyph_checks]; exact Bool.false_ne_true)]
  rw [if_neg (by rw [qm_check]; exact Bool.false_ne_true)]
  rw [if_pos (by rw [dcolon_check])]
  have hdrop : ('d' :: ':' :: ' ' ::
      (chars roll ++ (' ' :: '=' :: '>' :: ' ' :: chars outcome))).drop 2 =
      ' ' :: (chars roll ++ (' ' :: '=' :: '>' :: ' ' :: chars outcome)) := rfl
  rw [hdrop]
  have hshape : ' ' :: (chars roll ++ (' ' :: '=' :: '>' :: ' ' :: chars outcome)) =
      (' ' :: (chars roll ++ [' '])) ++ '=' :: '>' :: (' ' :: chars outcome) := by
    simp
  have hcontains : listContainsSub (' ' :: (chars roll ++ [' '])) (chars "=>") = false :=
    containsSub_arrow_cons_space (containsSub_arrow_snoc_space harrow)
  have hsplit : splitArrow (' ' :: (chars roll ++ (' ' :: '=' :: '>' :: ' ' :: chars outcome))) =
      (chars roll, chars outcome) := by
    unfold splitArrow
    rw [hshape, splitAtSub_arrow_append _ hcontains]
    show (trimChars (' ' :: (chars roll ++ [' '])), trimChars (' ' :: chars outcome)) = _
    rw [trimChars_cons_ws (by decide), trimChars_cons_ws (by decide),
      trimChars_append_ws_of_trimmed hroll, houtcome]
  rw [hsplit]
  rfl

/-! ## C6 — mechanics-roll success inference -/

theorem determineSuccess_override_of (outcome : String) (b : Bool)
    (h : explicitOverride outcome = some b) :
    determineSuccess outcome = some b := by
  unfold determineSuccess
  rw [h]

theorem determineSuccess_true_of (outcome : String)
    (hov : explicitOverride outcome = none)
    (h : (chars "success") <:+: (chars outcome).map Char.toLower ∨
      (chars "strong hit") <:+: (chars outcome).map Char.toLower) :
    determineSuccess outcome = some true := by
  unfold determineSuccess
  rw [hov]
  dsimp only
  rcases h with h | h
  · rw [(containsSub_iff _ _).mpr h]
    simp
  · rw [(containsSub_iff _ _).mpr h]
    simp

theorem determineSuccess_false_of (outcome : String)
    (hov : explicitOverride outcome = none)
    (hns : ¬((chars "success") <:+: (chars outcome).map Char.toLower ∨
      (chars "strong hit") <:+: (chars outcome).map Char.toLower))
    (h : (chars "fail") <:+: (chars outcome).map Char.toLower ∨
      (chars "miss") <:+: (chars outcome).map Char.toLower ∨
      (chars "weak hit") <:+: (chars outcome).map Char.toLower) :
    determineSuccess outcome = some false := by
  unfold determineSuccess
  rw [hov]
  dsimp only
  have e1 : listContainsSub ((chars outcome).map Char.toLower) (chars "success") = false := by
    cases hb : listContainsSub ((chars outcome).map Char.toLower) (chars "success") with
    | false => rfl
    | true => exact absurd (Or.inl ((containsSub_iff _ _).mp hb)) hns
  have e2 : listContainsSub ((chars outcome).map Char.toLower) (chars "strong hit") = false := by
    cases hb : listContainsSub ((chars outcome).map Char.toLower) (chars "strong hit") with
    | false => rfl
    | true => exact absurd (Or.inr ((containsSub_iff _ _).mp hb)) hns
  rw [e1, e2]
  rcases h with h | h | h
  · rw [(containsSub_iff _ _).mpr h]
    simp
  · rw [(containsSub_iff _ _).mpr h]
    simp
  · rw [(containsSub_iff _ _).mpr h]
    simp

theorem determineSuccess_none_of (outcome : String)
    (hov : explicitOverride outcome = none)
    (h : ¬((chars "success") <:+: (chars outcome).map Char.toLower ∨
        (chars "strong hit") <:+: (chars outcome).map Char.toLower ∨
        (chars "fail") <:+: (chars outcome).map Char.toLower ∨
        (chars "miss") <:+: (chars outcome).map Char.toLower ∨
        (chars "weak hit") <:+: (chars outcome).map Char.toLower)) :
    determineSuccess outcome = none := by
  unfold determineSuccess
  rw [hov]
  dsimp only
  have e : ∀ needle : List Char,
      (needle <:+: (chars outcome).map Char.toLower →
        (chars "success") <:+: (chars outcome).map Char.toLower ∨
        (chars "strong hit") <:+: (chars outcome).map Char.toLower ∨
        (chars "fail") <:+: (chars outcome).map Char.toLower ∨
        (chars "miss") <:+: (chars outcome).map Char.toLower ∨
        (chars "weak hit") <:+: (chars outcome).map Char.toLower) →
      listContainsSub ((chars outcome).map Char.toLower) needle = false := by
    intro needle himp
    cases hb : listContainsSub ((chars outcome).map Char.toLower) needle with
    | false => rfl
    | true => exact absurd (himp ((containsSub_iff _ _).mp hb)) h
  rw [e (chars "success") (fun hx => Or.inl hx),
    e (chars "strong hit") (fun hx => Or.inr (Or.inl hx)),
    e (chars "fail") (fun hx => Or.inr (Or.inr (Or.inl hx))),
    e (chars "miss") (fun hx => Or.inr (Or.inr (Or.inr (Or.inl hx)))),
    e (chars "weak hit") (fun hx => Or.inr (Or.inr (Or.inr (Or.inr hx))))]
  rfl

theorem jsSplitLines_single (line : String) (h : '\n' ∉ chars line) :
    jsSplitLines line = [line] := by
  unfold jsSplitLines
  rw [splitOnChar_no_sep h]
  show [ofChars (chars line)] = [line]
  rw [ofChars_chars]

theorem parseCodeBlock_mechanics (roll outcome : String) (n : Nat)
    (hroll : trimChars (chars roll) = chars roll)
    (houtcome : trimChars (chars outcome) = chars outcome)
    (hone : outcome ≠ "")
    (harrow : listContainsSub (chars roll) (chars "=>") = false)
    (hnr : '\n' ∉ chars roll) (hno : '\n' ∉ chars outcome) :
    parseCodeBlock ("d: " ++ roll ++ " => " ++ outcome) n =
      [⟨n, .mechanicsRoll roll outcome (determineSuccess outcome)⟩] := by
  have hcons : chars ("d: " ++ roll ++ " => " ++ outcome) =
      'd' :: ':' :: ' ' :: (chars roll ++ (' ' :: '=' :: '>' :: ' ' :: chars outcome)) := by
    rw [show ("d: " ++ roll ++ " => " ++ outcome) =
      (("d: " ++ roll) ++ " => ") ++ outcome from rfl]
    rw [chars_append, chars_append, chars_append]
    show (('d' :: ':' :: ' ' :: chars roll) ++ (' ' :: '=' :: '>' :: [' '])) ++
        chars outcome = _
    simp
  have hnl : '\n' ∉ chars ("d: " ++ roll ++ " => " ++ outcome) := by
    rw [hcons]
    intro hmem
    simp only [List.mem_cons, List.mem_append] at hmem
    rcases hmem with h | h | h | h | h | h | h | h | h
    · exact absurd h (by decide)
    · exact absurd h (by decide)
    · exact absurd h (by decide)
    · exact hnr h
    · exact absurd h (by decide)
    · exact absurd h (by decide)
    · exact absurd h (by decide)
    · exact absurd h (by decide)
    · exact hno h
  unfold parseCodeBlock
  rw [jsSplitLines_single _ hnl]
  unfold parseLinesFrom
  rw [classifyLine_mechanics roll outcome n hroll houtcome hone harrow]
  rfl

/-- Counterexample to C6: the claim's rule set is too small.  Spec
section 4.1 also marks a "weak hit" outcome as failure and lets an
explicit trailing `S`/`F` override the keyword scan, so the outcome
`Weak hit` — which contains none of the claim's four keywords
(success, strong hit, fail, miss) and should therefore give the
unknown value `null` under the claim — actually parses with success
`false`; likewise the keyword-free outcome `3 S` gives `true`. -/
theorem c6_success_counterexample :
    parseCodeBlock "d: 2d10 => Weak hit" 0 =
      [⟨0, .mechanicsRoll "2d10" "Weak hit" (some false)⟩] ∧
    determineSuccess "Weak hit" = some false ∧
    (some false : Option Bool) ≠ none ∧
    determineSuccess "3 S" = some true :=
  ⟨by decide, by decide, by decide, by decide⟩

/-- C6 (amended): the success field of a parsed mechanics-roll line
`d: <roll> => <outcome>` is derived from the outcome text alone — the
parsed element carries `determineSuccess outcome`, where an explicit
trailing `S`/`F` token overrides everything; otherwise the result is
`some true` when the outcome contains "success" or "strong hit"
(case-insensitively), `some false` when it contains "fail", "miss" or
"weak hit" and no success keyword, and the distinct unknown value
`none` (not `false`) when none of the keywords occur, as in
`d: 2d10 => 5`. -/
theorem c6_success_from_outcome_text :
    (∀ (roll outcome : String) (n : Nat),
      trimChars (chars roll) = chars roll →
      trimChars (chars outcome) = chars outcome →
      outcome ≠ "" →
      listContainsSub (chars roll) (chars "=>") = false →
      '\n' ∉ chars roll → '\n' ∉ chars outcome →
      parseCodeBlock ("d: " ++ roll ++ " => " ++ outcome) n =
        [⟨n, .mechanicsRoll roll outcome (determineSuccess outcome)⟩]) ∧
    (∀ (outcome : String) (b : Bool),
      explicitOverride outcome = some b →
      determineSuccess outcome = some b) ∧
    (∀ outcome : String,
      explicitOverride outcome = none →
      (chars "success") <:+: (chars outcome).map Char.toLower ∨
        (chars "strong hit") <:+: (chars outcome).map Char.toLower →
      determineSuccess outcome = some true) ∧
    (∀ outcome : String,
      explicitOverride outcome = none →
      ¬((chars "success") <:+: (chars outcome).map Char.toLower ∨
          (chars "strong hit") <:+: (chars outcome).map Char.toLower) →
      (chars "fail") <:+: (chars outcome).map Char.toLower ∨
        (chars "miss") <:+: (chars outcome).map Char.toLower ∨
        (chars "weak hit") <:+: (chars outcome).map Char.toLower →
      determineSuccess outcome = some false) ∧
    (∀ outcome : String,
      explicitOverride outcome = none →
      ¬((chars "success") <:+: (chars outcome).map Char.toLower ∨
          (chars "strong hit") <:+: (chars outcome).map Char.toLower ∨
          (chars "fail") <:+: (chars outcome).map Char.toLower ∨
          (chars "miss") <:+: (chars outcome).map Char.toLower ∨
          (chars "weak hit") <:+: (chars outcome).map Char.toLower) →
      determineSuccess outcome = none) ∧
    parseCodeBlock "d: 2d10 => Strong hit" 0 =
      [⟨0, .mechanicsRoll "2d10" "Strong hit" (some true)⟩] ∧
    parseCodeBlock "d: 1d20 => Failed" 0 =
      [⟨0, .mechanicsRoll "1d20" "Failed" (some false)⟩] ∧
    parseCodeBlock "d: 2d10 => Weak hit" 0 =
      [⟨0, .mechanicsRoll "2d10" "Weak hit" (some false)⟩] ∧
    parseCodeBlock "d: 2d6 => 3 F" 0 =
      [⟨0, .mechanicsRoll "2d6" "3 F" (some false)⟩] ∧
    parseCodeBlock "d: 2d10 => 5" 0 =
      [⟨0, .mechanicsRoll "2d10" "5" none⟩] :=
  ⟨parseCodeBlock_mechanics, determineSuccess_override_of, determineSuccess_true_of,
    determineSuccess_false_of, determineSuccess_none_of,
    by decide, by decide, by decide, by decide, by decide⟩

/-- Witness for C6: the general line lemma and each rule instantiated
at the repository's own test inputs plus the spec's override and
weak-hit cases. -/
theorem c6_success_from_outcome_text_witness :
    parseCodeBlock "d: 2d10 => 5" 0 =
      [⟨0, .mechanicsRoll "2d10" "5" (determineSuccess "5")⟩] ∧
    determineSuccess "3 S" = some true ∧
    determineSuccess "Strong hit" = some true ∧
    determineSuccess "Failed" = some false ∧
    determineSuccess "Weak hit" = some false ∧
    determineSuccess "5" = none :=
  ⟨c6_success_from_outcome_text.1 "2d10" "5" 0 (by decide) (by decide) (by decide)
      (by decide) (by decide) (by decide),
    c6_success_from_outcome_text.2.1 "3 S" true (by decide),
    c6_success_from_outcome_text.2.2.1 "Strong hit" (by decide)
      (Or.inr ((containsSub_iff _ _).mp (by decide))),
    c6_success_from_outcome_text.2.2.2.1 "Failed" (by decide)
      (fun hor =>
        hor.elim
          (fun ha => absurd ((containsSub_iff _ _).mpr ha) (by decide))
          (fun hb => absurd ((containsSub_iff _ _).mpr hb) (by decide)))
      (Or.inl ((containsSub_iff _ _).mp (by decide))),
    c6_success_from_outcome_text.2.2.2.1 "Weak hit" (by decide)
      (fun hor =>
        hor.elim
          (fun ha => absurd ((containsSub_iff _ _).mpr ha) (by decide))
          (fun hb => absurd ((containsSub_iff _ _).mpr hb) (by decide)))
      (Or.inr (Or.inr ((containsSub_iff _ _).mp (by decide)))),
    c6_success_from_outcome_text.2.2.2.2.1 "5" (by decide)
      (fun hor => by
        rcases hor with h | h | h | h | h
        · exact absurd ((containsSub_iff _ _).mpr h) (by decide)
        · exact absurd ((containsSub_iff _ _).mpr h) (by decide)
        · exact absurd ((containsSub_iff _ _).mpr h) (by decide)
        · exact absurd ((containsSub_iff _ _).mpr h) (by decide)
        · exact absurd ((containsSub_iff _ _).mpr h) (by decide))⟩

/-! ## C3 (continued) — universal identity-key lemmas

The counterexample above settles the reference kind; the lemmas below
establish the amended claim's positive half universally: for every
name, the extractor of each forward-tag kind derives the identity key
from the lower-cased, trimmed name, and the merge engines collapse any
two mentions with equal keys into a single canonical record. -/

theorem takeToClose_append_close {m : List Char} (rest : List Char) (h : ']' ∉ m) :
    takeToClose (m ++ ']' :: rest) = some (m, rest) := by
  induction m with
  | nil => simp [takeToClose]
  | cons c t ih =>
    have hc : ¬c = ']' := fun he => h (he ▸ List.mem_cons_self c t)
    have ht : ']' ∉ t := fun hm => h (List.mem_cons_of_mem c hm)
    show takeToClose (c :: (t ++ ']' :: rest)) = _
    unfold takeToClose
    rw [if_neg hc, ih ht]
    rfl

theorem scanTagAux_skip_ge (opener : List Char) :
    ∀ (l : List Char) (skip : Nat), l.length ≤ skip → scanTagAux opener skip l = [] := by
  intro l
  induction l with
  | nil =>
    intro skip _
    cases skip <;> rfl
  | cons c t ih =>
    intro skip hle
    cases skip with
    | zero => simp at hle
    | succ k =>
      show scanTagAux opener k t = []
      exact ih k (by simp at hle; omega)

theorem scanTagContents_single (o : Char) (op' inner : List Char) (h : ']' ∉ inner) :
    scanTagContents (o :: op') (o :: (op' ++ (inner ++ [']']))) = [inner] := by
  have hpre : (o :: op').isPrefixOf (o :: (op' ++ (inner ++ [']']))) = true :=
    (isPrefixOf_eq _ _).mpr (List.prefix_append (o :: op') (inner ++ [']']))
  have hdrop : (o :: (op' ++ (inner ++ [']']))).drop (o :: op').length =
      inner ++ [']'] := by
    show (op' ++ (inner ++ [']'])).drop op'.length = inner ++ [']']
    exact List.drop_left op' (inner ++ [']'])
  have htake : takeToClose (inner ++ [']']) = some (inner, []) :=
    takeToClose_append_close [] h
  show scanTagAux (o :: op') 0 (o :: (op' ++ (inner ++ [']']))) = [inner]
  simp only [scanTagAux]
  rw [hpre]
  simp only [if_true]
  rw [hdrop, htake]
  simp only
  rw [scanTagAux_skip_ge (o :: op') (op' ++ (inner ++ [']']))
    ((o :: op').length + inner.length) (by simp; omega)]

theorem splitOnChar_append_sep {sep : Char} {a b : List Char}
    (ha : sep ∉ a) (hb : sep ∉ b) :
    splitOnChar sep (a ++ sep :: b) = [a, b] := by
  induction a with
  | nil =>
    show splitOnChar sep (sep :: b) = [[], b]
    unfold splitOnChar
    rw [if_pos rfl, splitOnChar_no_sep hb]
  | cons c t ih =>
    have hc : ¬c = sep := fun he => ha (he ▸ List.mem_cons_self c t)
    have ht : sep ∉ t := fun hm => ha (List.mem_cons_of_mem c hm)
    show splitOnChar sep (c :: (t ++ sep :: b)) = [c :: t, b]
    unfold splitOnChar
    rw [if_neg hc, ih ht]

theorem mem_of_head?_eq {l : List Char} {c : Char} (h : l.head? = some c) : c ∈ l := by
  cases l with
  | nil => simp at h
  | cons x t =>
    simp at h
    exact h ▸ List.mem_cons_self x t

theorem mem_of_getLast?_eq {l : List Char} {c : Char} (h : l.getLast? = some c) :
    c ∈ l := by
  induction l with
  | nil => simp at h
  | cons x t ih =>
    cases t with
    | nil =>
      simp at h
      exact h ▸ List.mem_cons_self x []
    | cons y t' =>
      rw [List.getLast?_cons_cons] at h
      exact List.mem_cons_of_mem x (ih h)

theorem trimChars_eq_self_of_no_ws {l : List Char}
    (h : ∀ c ∈ l, wsChar c = false) : trimChars l = l :=
  trimChars_eq_self l
    (fun c hc => h c (mem_of_head?_eq hc))
    (fun c hc => h c (mem_of_getLast?_eq hc))

theorem digit_not_ws {c : Char} (h : digitChar c = true) : wsChar c = false := by
  have h1 : c ≠ ' ' := by
    intro he
    rw [he] at h
    exact absurd h (by decide)
  have h2 : c ≠ '\t' := by
    intro he
    rw [he] at h
    exact absurd h (by decide)
  have h3 : c ≠ '\n' := by
    intro he
    rw [he] at h
    exact absurd h (by decide)
  have h4 : c ≠ '\r' := by
    intro he
    rw [he] at h
    exact absurd h (by decide)
  simp [wsChar, h1, h2, h3, h4]

theorem digit_ne {c d : Char} (h : digitChar c = true) (hd : digitChar d = false) :
    c ≠ d := by
  intro he
  rw [he, hd] at h
  exact absurd h (by simp)

theorem parseNameTags_no_pipe {inner : List Char} (h1 : '|' ∉ inner)
    (h2 : trimChars inner ≠ []) :
    parseNameTags inner = some (trimChars inner, []) := by
  unfold parseNameTags
  rw [splitOnChar_no_sep h1]
  dsimp only
  rw [if_neg h2]
  rfl

theorem filterMap_singleton {α β : Type} (f : α → Option β) (a : α) {b : β}
    (h : f a = some b) : List.filterMap f [a] = [b] := by
  rw [List.filterMap_cons, h]
  rfl

theorem extractNPCs_one (name : List Char) (loc : Location)
    (h1 : ']' ∉ name) (h2 : '|' ∉ name) (h3 : trimChars name ≠ []) :
    extractNPCs (ofChars ('[' :: 'N' :: ':' :: (name ++ [']']))) loc =
      [{ id := mkEntityId "npc:" (trimChars name)
         name := ofChars (trimChars name)
         tags := []
         firstMention := loc
         mentions := [loc] }] := by
  have hscan : scanTagContents (chars "[N:") ('[' :: 'N' :: ':' :: (name ++ [']'])) =
      [name] := scanTagContents_single '[' ['N', ':'] name h1
  unfold extractNPCs
  rw [chars_ofChars, hscan]
  apply filterMap_singleton
  rw [parseNameTags_no_pipe h2 h3]
  rfl

theorem extractLocations_one (name : List Char) (loc : Location)
    (h1 : ']' ∉ name) (h2 : '|' ∉ name) (h3 : trimChars name ≠ []) :
    extractLocations (ofChars ('[' :: 'L' :: ':' :: (name ++ [']']))) loc =
      [{ id := mkEntityId "location:" (trimChars name)
         name := ofChars (trimChars name)
         tags := []
         firstMention := loc
         mentions := [loc] }] := by
  have hscan : scanTagContents (chars "[L:") ('[' :: 'L' :: ':' :: (name ++ [']'])) =
      [name] := scanTagContents_single '[' ['L', ':'] name h1
  unfold extractLocations
  rw [chars_ofChars, hscan]
  apply filterMap_singleton
  rw [parseNameTags_no_pipe h2 h3]
  rfl

theorem extractPlayerCharacters_one (name : List Char) (loc : Location)
    (h1 : ']' ∉ name) (h2 : '|' ∉ name) (h3 : trimChars name ≠ []) :
    extractPlayerCharacters (ofChars ('[' :: 'P' :: 'C' :: ':' :: (name ++ [']']))) loc =
      [{ id := mkEntityId "pc:" (trimChars name)
         name := ofChars (trimChars name)
         tags := []
         firstMention := loc
         mentions := [loc] }] := by
  have hscan : scanTagContents (chars "[PC:") ('[' :: 'P' :: 'C' :: ':' :: (name ++ [']'])) =
      [name] := scanTagContents_single '[' ['P', 'C', ':'] name h1
  unfold extractPlayerCharacters
  rw [chars_ofChars, hscan]
  apply filterMap_singleton
  rw [parseNameTags_no_pipe h2 h3]
  rfl

theorem extractThreads_one (name state : List Char) (loc : Location)
    (h1 : ']' ∉ name) (h1s : ']' ∉ state) (h2 : '|' ∉ name) (h2s : '|' ∉ state)
    (h3 : trimChars name ≠ []) :
    extractThreads
        (ofChars ('[' :: 'T' :: 'h' :: 'r' :: 'e' :: 'a' :: 'd' :: ':' ::
          ((name ++ '|' :: state) ++ [']']))) loc =
      [{ id := mkEntityId "thread:" (trimChars name)
         name := ofChars (trimChars name)
         state := ofChars (trimChars state)
         firstMention := loc
         mentions := [loc] }] := by
  have hmem : ']' ∉ name ++ '|' :: state := by
    intro hm
    rcases List.mem_append.mp hm with hm | hm
    · exact h1 hm
    · rcases List.mem_cons.mp hm with hm | hm
      · exact absurd hm (by decide)
      · exact h1s hm
  have hscan : scanTagContents (chars "[Thread:")
      ('[' :: 'T' :: 'h' :: 'r' :: 'e' :: 'a' :: 'd' :: ':' ::
        ((name ++ '|' :: state) ++ [']'])) = [name ++ '|' :: state] :=
    scanTagContents_single '[' ['T', 'h', 'r', 'e', 'a', 'd', ':']
      (name ++ '|' :: state) hmem
  unfold extractThreads
  rw [chars_ofChars, hscan]
  apply filterMap_singleton
  rw [splitOnChar_append_sep h2 h2s]
  dsimp only
  rw [if_neg h3]

theorem not_mem_of_all_digits {l : List Char} {c : Char}
    (hall : l.all digitChar = true) (hc : digitChar c = false) : c ∉ l := by
  intro hm
  have := List.all_eq_true.mp hall c hm
  rw [hc] at this
  exact absurd this (by simp)

theorem extractProgress_one (opener idPre : String) (o : Char) (op' : List Char)
    (hop : chars opener = o :: op')
    (name a b : List Char) (loc : Location)
    (h1 : ']' ∉ name) (h2 : '|' ∉ name) (h3 : trimChars name ≠ [])
    (ha1 : a ≠ []) (ha2 : a.all digitChar = true)
    (hb1 : b ≠ []) (hb2 : b.all digitChar = true) :
    extractProgress opener idPre
        (ofChars (o :: (op' ++ ((name ++ '|' :: (a ++ '/' :: b)) ++ [']'])))) loc =
      [{ id := mkEntityId idPre (trimChars name)
         name := ofChars (trimChars name)
         current := parseDigits a
         total := parseDigits b
         locations := [loc] }] := by
  have hja : ']' ∉ a := not_mem_of_all_digits ha2 (by decide)
  have hjb : ']' ∉ b := not_mem_of_all_digits hb2 (by decide)
  have hpa : '|' ∉ a := not_mem_of_all_digits ha2 (by decide)
  have hpb : '|' ∉ b := not_mem_of_all_digits hb2 (by decide)
  have hsa : '/' ∉ a := not_mem_of_all_digits ha2 (by decide)
  have hsb : '/' ∉ b := not_mem_of_all_digits hb2 (by decide)
  have hmem : ']' ∉ name ++ '|' :: (a ++ '/' :: b) := by
    intro hm
    rcases List.mem_append.mp hm with hm | hm
    · exact h1 hm
    · rcases List.mem_cons.mp hm with hm | hm
      · exact absurd hm (by decide)
      · rcases List.mem_append.mp hm with hm | hm
        · exact hja hm
        · rcases List.mem_cons.mp hm with hm | hm
          · exact absurd hm (by decide)
          · exact hjb hm
  have hpipe : '|' ∉ a ++ '/' :: b := by
    intro hm
    rcases List.mem_append.mp hm with hm | hm
    · exact hpa hm
    · rcases List.mem_cons.mp hm with hm | hm
      · exact absurd hm (by decide)
      · exact hpb hm
  have hscan : scanTagContents (chars opener)
      (o :: (op' ++ ((name ++ '|' :: (a ++ '/' :: b)) ++ [']']))) =
      [name ++ '|' :: (a ++ '/' :: b)] := by
    rw [hop]
    exact scanTagContents_single o op' (name ++ '|' :: (a ++ '/' :: b)) hmem
  have hfrac : parseFraction (a ++ '/' :: b) = some (parseDigits a, parseDigits b) := by
    unfold parseFraction
    have htr : trimChars (a ++ '/' :: b) = a ++ '/' :: b := by
      apply trimChars_eq_self_of_no_ws
      intro c hc
      rcases List.mem_append.mp hc with hc | hc
      · exact digit_not_ws (List.all_eq_true.mp ha2 c hc)
      · rcases List.mem_cons.mp hc with hc | hc
        · rw [hc]; decide
        · exact digit_not_ws (List.all_eq_true.mp hb2 c hc)
    rw [htr, splitOnChar_append_sep hsa hsb]
    dsimp only
    rw [if_pos (by simp [ha1, ha2, hb1, hb2])]
  have hsp : splitProgressContent (name ++ '|' :: (a ++ '/' :: b)) =
      some (trimChars name, a ++ '/' :: b) := by
    unfold splitProgressContent
    rw [splitOnChar_append_sep h2 hpipe]
  unfold extractProgress
  rw [chars_ofChars, hscan]
  apply filterMap_singleton
  dsimp only
  rw [hsp]
  dsimp only
  rw [if_neg h3, hfrac]
  rfl

theorem extractClocks_one (name a b : List Char) (loc : Location)
    (h1 : ']' ∉ name) (h2 : '|' ∉ name) (h3 : trimChars name ≠ [])
    (ha1 : a ≠ []) (ha2 : a.all digitChar = true)
    (hb1 : b ≠ []) (hb2 : b.all digitChar = true) :
    extractClocks
        (ofChars ('[' :: 'C' :: 'l' :: 'o' :: 'c' :: 'k' :: ':' ::
          ((name ++ '|' :: (a ++ '/' :: b)) ++ [']']))) loc =
      [{ id := mkEntityId "clock:" (trimChars name)
         name := ofChars (trimChars name)
         current := parseDigits a
         total := parseDigits b
         locations := [loc] }] :=
  extractProgress_one "[Clock:" "clock:" '[' ['C', 'l', 'o', 'c', 'k', ':'] rfl
    name a b loc h1 h2 h3 ha1 ha2 hb1 hb2

theorem extractTracks_one (name a b : List Char) (loc : Location)
    (h1 : ']' ∉ name) (h2 : '|' ∉ name) (h3 : trimChars name ≠ [])
    (ha1 : a ≠ []) (ha2 : a.all digitChar = true)
    (hb1 : b ≠ []) (hb2 : b.all digitChar = true) :
    extractTracks
        (ofChars ('[' :: 'T' :: 'r' :: 'a' :: 'c' :: 'k' :: ':' ::
          ((name ++ '|' :: (a ++ '/' :: b)) ++ [']']))) loc =
      [{ id := mkEntityId "track:" (trimChars name)
         name := ofChars (trimChars name)
         current := parseDigits a
         total := parseDigits b
         locations := [loc] }] :=
  extractProgress_one "[Track:" "track:" '[' ['T', 'r', 'a', 'c', 'k', ':'] rfl
    name a b loc h1 h2 h3 ha1 ha2 hb1 hb2

theorem extractEvents_one (name a b : List Char) (loc : Location)
    (h1 : ']' ∉ name) (h2 : '|' ∉ name) (h3 : trimChars name ≠ [])
    (ha1 : a ≠ []) (ha2 : a.all digitChar = true)
    (hb1 : b ≠ []) (hb2 : b.all digitChar = true) :
    extractEvents
        (ofChars ('[' :: 'E' :: ':' :: ((name ++ '|' :: (a ++ '/' :: b)) ++ [']']))) loc =
      [{ id := mkEntityId "event:" (trimChars name)
         name := ofChars (trimChars name)
         current := parseDigits a
         total := parseDigits b
         locations := [loc] }] :=
  extractProgress_one "[E:" "event:" '[' ['E', ':'] rfl
    name a b loc h1 h2 h3 ha1 ha2 hb1 hb2

theorem extractTimers_one (name v : List Char) (loc : Location)
    (h1 : ']' ∉ name) (h2 : '|' ∉ name) (h3 : trimChars name ≠ [])
    (hv1 : v ≠ []) (hv2 : v.all digitChar = true) :
    extractTimers
        (ofChars ('[' :: 'T' :: 'i' :: 'm' :: 'e' :: 'r' :: ':' ::
          ((name ++ '|' :: v) ++ [']']))) loc =
      [{ id := mkEntityId "timer:" (trimChars name)
         name := ofChars (trimChars name)
         value := parseDigits v
         locations := [loc] }] := by
  have hjv : ']' ∉ v := not_mem_of_all_digits hv2 (by decide)
  have hpv : '|' ∉ v := not_mem_of_all_digits hv2 (by decide)
  have hmem : ']' ∉ name ++ '|' :: v := by
    intro hm
    rcases List.mem_append.mp hm with hm | hm
    · exact h1 hm
    · rcases List.mem_cons.mp hm with hm | hm
      · exact absurd hm (by decide)
      · exact hjv hm
  have hscan : scanTagContents (chars "[Timer:")
      ('[' :: 'T' :: 'i' :: 'm' :: 'e' :: 'r' :: ':' :: ((name ++ '|' :: v) ++ [']'])) =
      [name ++ '|' :: v] :=
    scanTagContents_single '[' ['T', 'i', 'm', 'e', 'r', ':'] (name ++ '|' :: v) hmem
  have htr : trimChars v = v := by
    apply trimChars_eq_self_of_no_ws
    intro c hc
    exact digit_not_ws (List.all_eq_true.mp hv2 c hc)
  have hsp : splitProgressContent (name ++ '|' :: v) = some (trimChars name, v) := by
    unfold splitProgressContent
    rw [splitOnChar_append_sep h2 hpv]
  unfold extractTimers
  rw [chars_ofChars, hscan]
  apply filterMap_singleton
  rw [hsp]
  dsimp only
  rw [if_neg h3, htr]
  rw [if_pos (by simp [hv1, hv2])]

/-! ### same-key pair merges, one per merge engine -/

theorem mergeNPCs_pair (a b : NPC) (h : b.id = a.id) :
    mergeNPCs [a, b] = [(a.id, mergeNPCInto a b)] := by
  show List.foldl mergeNPCStep [] [a, b] = _
  rw [List.foldl_cons, List.foldl_cons, List.foldl_nil]
  have h0 : mergeNPCStep [] a = [(a.id, a)] := by
    simp [mergeNPCStep, mapGet, List.find?, mapSet]
  rw [h0]
  simp [mergeNPCStep, mapGet, List.find?, mapSet, h]

theorem mergeLocations_pair (a b : LocationTag) (h : b.id = a.id) :
    mergeLocations [a, b] = [(a.id, mergeLocationInto a b)] := by
  show List.foldl _ [] [a, b] = _
  rw [List.foldl_cons, List.foldl_cons, List.foldl_nil]
  simp [mapGet, List.find?, mapSet, h]

theorem mergePlayerCharacters_pair (a b : PlayerCharacter) (h : b.id = a.id) :
    mergePlayerCharacters [a, b] = [(a.id, mergePlayerCharacterInto a b)] := by
  show List.foldl _ [] [a, b] = _
  rw [List.foldl_cons, List.foldl_cons, List.foldl_nil]
  simp [mapGet, List.find?, mapSet, h]

theorem mergeThreads_pair (a b : Thread) (h : b.id = a.id) :
    mergeThreads [a, b] =
      [(a.id, { a with state := b.state, mentions := a.mentions ++ b.mentions })] := by
  show List.foldl mergeThreadStep [] [a, b] = _
  rw [List.foldl_cons, List.foldl_cons, List.foldl_nil]
  have h0 : mergeThreadStep [] a = [(a.id, a)] := by
    simp [mergeThreadStep, mapGet, List.find?, mapSet]
  rw [h0]
  simp [mergeThreadStep, mapGet, List.find?, mapSet, h]

theorem mergeProgress_pair (a b : ProgressEnt) (h : b.id = a.id) :
    List.foldl mergeProgressStep [] [a, b] =
      [(a.id, { a with
          current := b.current
          total := b.total
          locations := a.locations ++ b.locations })] := by
  rw [List.foldl_cons, List.foldl_cons, List.foldl_nil]
  have h0 : mergeProgressStep [] a = [(a.id, a)] := by
    simp [mergeProgressStep, mapGet, List.find?, mapSet]
  rw [h0]
  simp [mergeProgressStep, mapGet, List.find?, mapSet, h]

theorem mergeTimers_pair (a b : TimerEnt) (h : b.id = a.id) :
    mergeTimers [a, b] =
      [(a.id, { a with value := b.value, locations := a.locations ++ b.locations })] := by
  show List.foldl _ [] [a, b] = _
  rw [List.foldl_cons, List.foldl_cons, List.foldl_nil]
  simp [mapGet, List.find?, mapSet, h]

theorem mergeReferences_pair_same (a b : Reference)
    (hty : b.type = a.type) (hid : b.id = a.id) :
    mergeReferences [a, b] =
      [(a.type.str ++ ":" ++ a.id,
        { a with mentions := a.mentions ++ b.mentions })] := by
  show List.foldl _ [] [a, b] = _
  rw [List.foldl_cons, List.foldl_cons, List.foldl_nil]
  simp [mapGet, List.find?, mapSet, hty, hid]

theorem mergeReferences_pair_ne (a b : Reference)
    (h : ¬(b.type.str ++ ":" ++ b.id = a.type.str ++ ":" ++ a.id)) :
    mergeReferences [a, b] =
      [(a.type.str ++ ":" ++ a.id, a), (b.type.str ++ ":" ++ b.id, b)] := by
  have hne : a.type.str ++ ":" ++ a.id ≠ b.type.str ++ ":" ++ b.id :=
    fun he => h he.symm
  show List.foldl _ [] [a, b] = _
  rw [List.foldl_cons, List.foldl_cons, List.foldl_nil]
  dsimp only
  simp [mapGet, List.find?, mapSet, hne]

theorem string_append_cancel_left {s a b : String} (h : s ++ a = s ++ b) :
    a = b := by
  cases s with
  | mk sd =>
    cases a with
    | mk ad =>
      cases b with
      | mk bd =>
        have hd : sd ++ ad = sd ++ bd := congrArg String.data h
        exact congrArg String.mk (List.append_cancel_left hd)

/-! ### end-to-end: two mentions whose names agree up to case and
surrounding whitespace merge into one canonical record, per kind -/

theorem mergeNPCs_case_ws (n1 n2 : List Char) (loc1 loc2 : Location)
    (hj1 : ']' ∉ n1) (hp1 : '|' ∉ n1) (ht1 : trimChars n1 ≠ [])
    (hj2 : ']' ∉ n2) (hp2 : '|' ∉ n2) (ht2 : trimChars n2 ≠ [])
    (hmap : (trimChars n1).map Char.toLower = (trimChars n2).map Char.toLower) :
    mergeNPCs
        (extractNPCs (ofChars ('[' :: 'N' :: ':' :: (n1 ++ [']']))) loc1 ++
          extractNPCs (ofChars ('[' :: 'N' :: ':' :: (n2 ++ [']']))) loc2) =
      [(mkEntityId "npc:" (trimChars n1),
        { id := mkEntityId "npc:" (trimChars n1)
          name := ofChars (trimChars n1)
          tags := []
          firstMention := loc1
          mentions := [loc1, loc2] })] := by
  have hid : mkEntityId "npc:" (trimChars n2) = mkEntityId "npc:" (trimChars n1) := by
    unfold mkEntityId
    rw [hmap]
  have hpair := mergeNPCs_pair
    { id := mkEntityId "npc:" (trimChars n1)
      name := ofChars (trimChars n1)
      tags := []
      firstMention := loc1
      mentions := [loc1] }
    { id := mkEntityId "npc:" (trimChars n2)
      name := ofChars (trimChars n2)
      tags := []
      firstMention := loc2
      mentions := [loc2] }
    hid
  rw [extractNPCs_one n1 loc1 hj1 hp1 ht1, extractNPCs_one n2 loc2 hj2 hp2 ht2,
    List.singleton_append, hpair]
  rfl

theorem mergeLocations_case_ws (n1 n2 : List Char) (loc1 loc2 : Location)
    (hj1 : ']' ∉ n1) (hp1 : '|' ∉ n1) (ht1 : trimChars n1 ≠ [])
    (hj2 : ']' ∉ n2) (hp2 : '|' ∉ n2) (ht2 : trimChars n2 ≠ [])
    (hmap : (trimChars n1).map Char.toLower = (trimChars n2).map Char.toLower) :
    mergeLocations
        (extractLocations (ofChars ('[' :: 'L' :: ':' :: (n1 ++ [']']))) loc1 ++
          extractLocations (ofChars ('[' :: 'L' :: ':' :: (n2 ++ [']']))) loc2) =
      [(mkEntityId "location:" (trimChars n1),
        { id := mkEntityId "location:" (trimChars n1)
          name := ofChars (trimChars n1)
          tags := []
          firstMention := loc1
          mentions := [loc1, loc2] })] := by
  have hid : mkEntityId "location:" (trimChars n2) =
      mkEntityId "location:" (trimChars n1) := by
    unfold mkEntityId
    rw [hmap]
  have hpair := mergeLocations_pair
    { id := mkEntityId "location:" (trimChars n1)
      name := ofChars (trimChars n1)
      tags := []
      firstMention := loc1
      mentions := [loc1] }
    { id := mkEntityId "location:" (trimChars n2)
      name := ofChars (trimChars n2)
      tags := []
      firstMention := loc2
      mentions := [loc2] }
    hid
  rw [extractLocations_one n1 loc1 hj1 hp1 ht1,
    extractLocations_one n2 loc2 hj2 hp2 ht2, List.singleton_append, hpair]
  rfl

theorem mergePlayerCharacters_case_ws (n1 n2 : List Char) (loc1 loc2 : Location)
    (hj1 : ']' ∉ n1) (hp1 : '|' ∉ n1) (ht1 : trimChars n1 ≠ [])
    (hj2 : ']' ∉ n2) (hp2 : '|' ∉ n2) (ht2 : trimChars n2 ≠ [])
    (hmap : (trimChars n1).map Char.toLower = (trimChars n2).map Char.toLower) :
    mergePlayerCharacters
        (extractPlayerCharacters
            (ofChars ('[' :: 'P' :: 'C' :: ':' :: (n1 ++ [']']))) loc1 ++
          extractPlayerCharacters
            (ofChars ('[' :: 'P' :: 'C' :: ':' :: (n2 ++ [']']))) loc2) =
      [(mkEntityId "pc:" (trimChars n1),
        { id := mkEntityId "pc:" (trimChars n1)
          name := ofChars (trimChars n1)
          tags := []
          firstMention := loc1
          mentions := [loc1, loc2] })] := by
  have hid : mkEntityId "pc:" (trimChars n2) = mkEntityId "pc:" (trimChars n1) := by
    unfold mkEntityId
    rw [hmap]
  have hpair := mergePlayerCharacters_pair
    { id := mkEntityId "pc:" (trimChars n1)
      name := ofChars (trimChars n1)
      tags := []
      firstMention := loc1
      mentions := [loc1] }
    { id := mkEntityId "pc:" (trimChars n2)
      name := ofChars (trimChars n2)
      tags := []
      firstMention := loc2
      mentions := [loc2] }
    hid
  rw [extractPlayerCharacters_one n1 loc1 hj1 hp1 ht1,
    extractPlayerCharacters_one n2 loc2 hj2 hp2 ht2, List.singleton_append, hpair]
  rfl

theorem mergeThreads_case_ws (n1 n2 s1 s2 : List Char) (loc1 loc2 : Location)
    (hj1 : ']' ∉ n1) (hp1 : '|' ∉ n1) (ht1 : trimChars n1 ≠ [])
    (hj2 : ']' ∉ n2) (hp2 : '|' ∉ n2) (ht2 : trimChars n2 ≠ [])
    (hjs1 : ']' ∉ s1) (hps1 : '|' ∉ s1) (hjs2 : ']' ∉ s2) (hps2 : '|' ∉ s2)
    (hmap : (trimChars n1).map Char.toLower = (trimChars n2).map Char.toLower) :
    mergeThreads
        (extractThreads
            (ofChars ('[' :: 'T' :: 'h' :: 'r' :: 'e' :: 'a' :: 'd' :: ':' ::
              ((n1 ++ '|' :: s1) ++ [']']))) loc1 ++
          extractThreads
            (ofChars ('[' :: 'T' :: 'h' :: 'r' :: 'e' :: 'a' :: 'd' :: ':' ::
              ((n2 ++ '|' :: s2) ++ [']']))) loc2) =
      [(mkEntityId "thread:" (trimChars n1),
        { id := mkEntityId "thread:" (trimChars n1)
          name := ofChars (trimChars n1)
          state := ofChars (trimChars s2)
          firstMention := loc1
          mentions := [loc1, loc2] })] := by
  have hid : mkEntityId "thread:" (trimChars n2) =
      mkEntityId "thread:" (trimChars n1) := by
    unfold mkEntityId
    rw [hmap]
  have hpair := mergeThreads_pair
    { id := mkEntityId "thread:" (trimChars n1)
      name := ofChars (trimChars n1)
      state := ofChars (trimChars s1)
      firstMention := loc1
      mentions := [loc1] }
    { id := mkEntityId "thread:" (trimChars n2)
      name := ofChars (trimChars n2)
      state := ofChars (trimChars s2)
      firstMention := loc2
      mentions := [loc2] }
    hid
  rw [extractThreads_one n1 s1 loc1 hj1 hjs1 hp1 hps1 ht1,
    extractThreads_one n2 s2 loc2 hj2 hjs2 hp2 hps2 ht2,
    List.singleton_append, hpair]
  rfl

theorem mergeClocks_case_ws (n1 n2 a1 b1 a2 b2 : List Char) (loc1 loc2 : Location)
    (hj1 : ']' ∉ n1) (hp1 : '|' ∉ n1) (ht1 : trimChars n1 ≠ [])
    (hj2 : ']' ∉ n2) (hp2 : '|' ∉ n2) (ht2 : trimChars n2 ≠ [])
    (ha11 : a1 ≠ []) (ha12 : a1.all digitChar = true)
    (hb11 : b1 ≠ []) (hb12 : b1.all digitChar = true)
    (ha21 : a2 ≠ []) (ha22 : a2.all digitChar = true)
    (hb21 : b2 ≠ []) (hb22 : b2.all digitChar = true)
    (hmap : (trimChars n1).map Char.toLower = (trimChars n2).map Char.toLower) :
    mergeClocks
        (extractClocks (ofChars ('[' :: 'C' :: 'l' :: 'o' :: 'c' :: 'k' :: ':' ::
            ((n1 ++ '|' :: (a1 ++ '/' :: b1)) ++ [']']))) loc1 ++
          extractClocks (ofChars ('[' :: 'C' :: 'l' :: 'o' :: 'c' :: 'k' :: ':' ::
            ((n2 ++ '|' :: (a2 ++ '/' :: b2)) ++ [']']))) loc2) =
      [(mkEntityId "clock:" (trimChars n1),
        { id := mkEntityId "clock:" (trimChars n1)
          name := ofChars (trimChars n1)
          current := parseDigits a2
          total := parseDigits b2
          locations := [loc1, loc2] })] := by
  have hid : mkEntityId "clock:" (trimChars n2) =
      mkEntityId "clock:" (trimChars n1) := by
    unfold mkEntityId
    rw [hmap]
  have hpair := mergeProgress_pair
    { id := mkEntityId "clock:" (trimChars n1)
      name := ofChars (trimChars n1)
      current := parseDigits a1
      total := parseDigits b1
      locations := [loc1] }
    { id := mkEntityId "clock:" (trimChars n2)
      name := ofChars (trimChars n2)
      current := parseDigits a2
      total := parseDigits b2
      locations := [loc2] }
    hid
  unfold mergeClocks
  rw [extractClocks_one n1 a1 b1 loc1 hj1 hp1 ht1 ha11 ha12 hb11 hb12,
    extractClocks_one n2 a2 b2 loc2 hj2 hp2 ht2 ha21 ha22 hb21 hb22,
    List.singleton_append, hpair]
  rfl

theorem mergeTracks_case_ws (n1 n2 a1 b1 a2 b2 : List Char) (loc1 loc2 : Location)
    (hj1 : ']' ∉ n1) (hp1 : '|' ∉ n1) (ht1 : trimChars n1 ≠ [])
    (hj2 : ']' ∉ n2) (hp2 : '|' ∉ n2) (ht2 : trimChars n2 ≠ [])
    (ha11 : a1 ≠ []) (ha12 : a1.all digitChar = true)
    (hb11 : b1 ≠ []) (hb12 : b1.all digitChar = true)
    (ha21 : a2 ≠ []) (ha22 : a2.all digitChar = true)
    (hb21 : b2 ≠ []) (hb22 : b2.all digitChar = true)
    (hmap : (trimChars n1).map Char.toLower = (trimChars n2).map Char.toLower) :
    mergeTracks
        (extractTracks (ofChars ('[' :: 'T' :: 'r' :: 'a' :: 'c' :: 'k' :: ':' ::
            ((n1 ++ '|' :: (a1 ++ '/' :: b1)) ++ [']']))) loc1 ++
          extractTracks (ofChars ('[' :: 'T' :: 'r' :: 'a' :: 'c' :: 'k' :: ':' ::
            ((n2 ++ '|' :: (a2 ++ '/' :: b2)) ++ [']']))) loc2) =
      [(mkEntityId "track:" (trimChars n1),
        { id := mkEntityId "track:" (trimChars n1)
          name := ofChars (trimChars n1)
          current := parseDigits a2
          total := parseDigits b2
          locations := [loc1, loc2] })] := by
  have hid : mkEntityId "track:" (trimChars n2) =
      mkEntityId "track:" (trimChars n1) := by
    unfold mkEntityId
    rw [hmap]
  have hpair := mergeProgress_pair
    { id := mkEntityId "track:" (trimChars n1)
      name := ofChars (trimChars n1)
      current := parseDigits a1
      total := parseDigits b1
      locations := [loc1] }
    { id := mkEntityId "track:" (trimChars n2)
      name := ofChars (trimChars n2)
      current := parseDigits a2
      total := parseDigits b2
      locations := [loc2] }
    hid
  unfold mergeTracks
  rw [extractTracks_one n1 a1 b1 loc1 hj1 hp1 ht1 ha11 ha12 hb11 hb12,
    extractTracks_one n2 a2 b2 loc2 hj2 hp2 ht2 ha21 ha22 hb21 hb22,
    List.singleton_append, hpair]
  rfl

theorem mergeEvents_case_ws (n1 n2 a1 b1 a2 b2 : List Char) (loc1 loc2 : Location)
    (hj1 : ']' ∉ n1) (hp1 : '|' ∉ n1) (ht1 : trimChars n1 ≠ [])
    (hj2 : ']' ∉ n2) (hp2 : '|' ∉ n2) (ht2 : trimChars n2 ≠ [])
    (ha11 : a1 ≠ []) (ha12 : a1.all digitChar = true)
    (hb11 : b1 ≠ []) (hb12 : b1.all digitChar = true)
    (ha21 : a2 ≠ []) (ha22 : a2.all digitChar = true)
    (hb21 : b2 ≠ []) (hb22 : b2.all digitChar = true)
    (hmap : (trimChars n1).map Char.toLower = (trimChars n2).map Char.toLower) :
    mergeEvents
        (extractEvents (ofChars ('[' :: 'E' :: ':' ::
            ((n1 ++ '|' :: (a1 ++ '/' :: b1)) ++ [']']))) loc1 ++
          extractEvents (ofChars ('[' :: 'E' :: ':' ::
            ((n2 ++ '|' :: (a2 ++ '/' :: b2)) ++ [']']))) loc2) =
      [(mkEntityId "event:" (trimChars n1),
        { id := mkEntityId "event:" (trimChars n1)
          name := ofChars (trimChars n1)
          current := parseDigits a2
          total := parseDigits b2
          locations := [loc1, loc2] })] := by
  have hid : mkEntityId "event:" (trimChars n2) =
      mkEntityId "event:" (trimChars n1) := by
    unfold mkEntityId
    rw [hmap]
  have hpair := mergeProgress_pair
    { id := mkEntityId "event:" (trimChars n1)
      name := ofChars (trimChars n1)
      current := parseDigits a1
      total := parseDigits b1
      locations := [loc1] }
    { id := mkEntityId "event:" (trimChars n2)
      name := ofChars (trimChars n2)
      current := parseDigits a2
      total := parseDigits b2
      locations := [loc2] }
    hid
  unfold mergeEvents
  rw [extractEvents_one n1 a1 b1 loc1 hj1 hp1 ht1 ha11 ha12 hb11 hb12,
    extractEvents_one n2 a2 b2 loc2 hj2 hp2 ht2 ha21 ha22 hb21 hb22,
    List.singleton_append, hpair]
  rfl

theorem mergeTimers_case_ws (n1 n2 v1 v2 : List Char) (loc1 loc2 : Location)
    (hj1 : ']' ∉ n1) (hp1 : '|' ∉ n1) (ht1 : trimChars n1 ≠ [])
    (hj2 : ']' ∉ n2) (hp2 : '|' ∉ n2) (ht2 : trimChars n2 ≠ [])
    (hv11 : v1 ≠ []) (hv12 : v1.all digitChar = true)
    (hv21 : v2 ≠ []) (hv22 : v2.all digitChar = true)
    (hmap : (trimChars n1).map Char.toLower = (trimChars n2).map Char.toLower) :
    mergeTimers
        (extractTimers (ofChars ('[' :: 'T' :: 'i' :: 'm' :: 'e' :: 'r' :: ':' ::
            ((n1 ++ '|' :: v1) ++ [']']))) loc1 ++
          extractTimers (ofChars ('[' :: 'T' :: 'i' :: 'm' :: 'e' :: 'r' :: ':' ::
            ((n2 ++ '|' :: v2) ++ [']']))) loc2) =
      [(mkEntityId "timer:" (trimChars n1),
        { id := mkEntityId "timer:" (trimChars n1)
          name := ofChars (trimChars n1)
          value := parseDigits v2
          locations := [loc1, loc2] })] := by
  have hid : mkEntityId "timer:" (trimChars n2) =
      mkEntityId "timer:" (trimChars n1) := by
    unfold mkEntityId
    rw [hmap]
  have hpair := mergeTimers_pair
    { id := mkEntityId "timer:" (trimChars n1)
      name := ofChars (trimChars n1)
      value := parseDigits v1
      locations := [loc1] }
    { id := mkEntityId "timer:" (trimChars n2)
      name := ofChars (trimChars n2)
      value := parseDigits v2
      locations := [loc2] }
    hid
  rw [extractTimers_one n1 v1 loc1 hj1 hp1 ht1 hv11 hv12,
    extractTimers_one n2 v2 loc2 hj2 hp2 ht2 hv21 hv22,
    List.singleton_append, hpair]
  rfl

theorem mergeReferences_case_preserved (t : RefType) (nm : String)
    (loc1 loc2 : Location) :
    mergeReferences
        [refToReference ⟨t, nm⟩ loc1, refToReference ⟨t, nm⟩ loc2] =
      [(t.str ++ ":" ++ nm,
        { id := nm
          name := nm
          type := t
          firstMention := loc1
          mentions := [loc1, loc2] })] := by
  have h := mergeReferences_pair_same
    (refToReference ⟨t, nm⟩ loc1) (refToReference ⟨t, nm⟩ loc2) rfl rfl
  rw [h]
  rfl

theorem mergeReferences_case_sensitive (t : RefType) (n1 n2 : String)
    (loc1 loc2 : Location) (hne : n1 ≠ n2) :
    mergeReferences
        [refToReference ⟨t, n1⟩ loc1, refToReference ⟨t, n2⟩ loc2] =
      [(t.str ++ ":" ++ n1, refToReference ⟨t, n1⟩ loc1),
        (t.str ++ ":" ++ n2, refToReference ⟨t, n2⟩ loc2)] := by
  have h := mergeReferences_pair_ne
    (refToReference ⟨t, n1⟩ loc1) (refToReference ⟨t, n2⟩ loc2)
    (fun he => hne (string_append_cancel_left he).symm)
  rw [h]
  rfl

/-- C3 (amended): for every pair of mentions of any of the eight entity
kinds (NPC, location, player character, thread, clock, track, event,
timer) whose names agree after whitespace trimming and letter-case
folding, extraction followed by merging yields one single canonical
record, keyed by the lowercased trimmed name, carrying the
latest-mention state/progress values and both mention locations;
`Reference` records, by contrast, merge under the exact case-preserved
`type:name` key, so two back-references with distinct raw names (for
example names differing only in letter case) remain two separate
records. -/
theorem c3_case_key_amended :
    (∀ (n1 n2 : List Char) (loc1 loc2 : Location),
      ']' ∉ n1 → '|' ∉ n1 → trimChars n1 ≠ [] →
      ']' ∉ n2 → '|' ∉ n2 → trimChars n2 ≠ [] →
      (trimChars n1).map Char.toLower = (trimChars n2).map Char.toLower →
      mergeNPCs
          (extractNPCs (ofChars ('[' :: 'N' :: ':' :: (n1 ++ [']']))) loc1 ++
            extractNPCs (ofChars ('[' :: 'N' :: ':' :: (n2 ++ [']']))) loc2) =
        [(mkEntityId "npc:" (trimChars n1),
          { id := mkEntityId "npc:" (trimChars n1)
            name := ofChars (trimChars n1)
            tags := []
            firstMention := loc1
            mentions := [loc1, loc2] })]) ∧
    (∀ (n1 n2 : List Char) (loc1 loc2 : Location),
      ']' ∉ n1 → '|' ∉ n1 → trimChars n1 ≠ [] →
      ']' ∉ n2 → '|' ∉ n2 → trimChars n2 ≠ [] →
      (trimChars n1).map Char.toLower = (trimChars n2).map Char.toLower →
      mergeLocations
          (extractLocations (ofChars ('[' :: 'L' :: ':' :: (n1 ++ [']']))) loc1 ++
            extractLocations (ofChars ('[' :: 'L' :: ':' :: (n2 ++ [']']))) loc2) =
        [(mkEntityId "location:" (trimChars n1),
          { id := mkEntityId "location:" (trimChars n1)
            name := ofChars (trimChars n1)
            tags := []
            firstMention := loc1
            mentions := [loc1, loc2] })]) ∧
    (∀ (n1 n2 : List Char) (loc1 loc2 : Location),
      ']' ∉ n1 → '|' ∉ n1 → trimChars n1 ≠ [] →
      ']' ∉ n2 → '|' ∉ n2 → trimChars n2 ≠ [] →
      (trimChars n1).map Char.toLower = (trimChars n2).map Char.toLower →
      mergePlayerCharacters
          (extractPlayerCharacters
              (ofChars ('[' :: 'P' :: 'C' :: ':' :: (n1 ++ [']']))) loc1 ++
            extractPlayerCharacters
              (ofChars ('[' :: 'P' :: 'C' :: ':' :: (n2 ++ [']']))) loc2) =
        [(mkEntityId "pc:" (trimChars n1),
          { id := mkEntityId "pc:" (trimChars n1)
            name := ofChars (trimChars n1)
            tags := []
            firstMention := loc1
            mentions := [loc1, loc2] })]) ∧
    (∀ (n1 n2 s1 s2 : List Char) (loc1 loc2 : Location),
      ']' ∉ n1 → '|' ∉ n1 → trimChars n1 ≠ [] →
      ']' ∉ n2 → '|' ∉ n2 → trimChars n2 ≠ [] →
      ']' ∉ s1 → '|' ∉ s1 → ']' ∉ s2 → '|' ∉ s2 →
      (trimChars n1).map Char.toLower = (trimChars n2).map Char.toLower →
      mergeThreads
          (extractThreads
              (ofChars ('[' :: 'T' :: 'h' :: 'r' :: 'e' :: 'a' :: 'd' :: ':' ::
                ((n1 ++ '|' :: s1) ++ [']']))) loc1 ++
            extractThreads
              (ofChars ('[' :: 'T' :: 'h' :: 'r' :: 'e' :: 'a' :: 'd' :: ':' ::
                ((n2 ++ '|' :: s2) ++ [']']))) loc2) =
        [(mkEntityId "thread:" (trimChars n1),
          { id := mkEntityId "thread:" (trimChars n1)
            name := ofChars (trimChars n1)
            state := ofChars (trimChars s2)
            firstMention := loc1
            mentions := [loc1, loc2] })]) ∧
    (∀ (n1 n2 a1 b1 a2 b2 : List Char) (loc1 loc2 : Location),
      ']' ∉ n1 → '|' ∉ n1 → trimChars n1 ≠ [] →
      ']' ∉ n2 → '|' ∉ n2 → trimChars n2 ≠ [] →
      a1 ≠ [] → a1.all digitChar = true → b1 ≠ [] → b1.all digitChar = true →
      a2 ≠ [] → a2.all digitChar = true → b2 ≠ [] → b2.all digitChar = true →
      (trimChars n1).map Char.toLower = (trimChars n2).map Char.toLower →
      mergeClocks
          (extractClocks (ofChars ('[' :: 'C' :: 'l' :: 'o' :: 'c' :: 'k' :: ':' ::
              ((n1 ++ '|' :: (a1 ++ '/' :: b1)) ++ [']']))) loc1 ++
            extractClocks (ofChars ('[' :: 'C' :: 'l' :: 'o' :: 'c' :: 'k' :: ':' ::
              ((n2 ++ '|' :: (a2 ++ '/' :: b2)) ++ [']']))) loc2) =
        [(mkEntityId "clock:" (trimChars n1),
          { id := mkEntityId "clock:" (trimChars n1)
            name := ofChars (trimChars n1)
            current := parseDigits a2
            total := parseDigits b2
            locations := [loc1, loc2] })]) ∧
    (∀ (n1 n2 a1 b1 a2 b2 : List Char) (loc1 loc2 : Location),
      ']' ∉ n1 → '|' ∉ n1 → trimChars n1 ≠ [] →
      ']' ∉ n2 → '|' ∉ n2 → trimChars n2 ≠ [] →
      a1 ≠ [] → a1.all digitChar = true → b1 ≠ [] → b1.all digitChar = true →
      a2 ≠ [] → a2.all digitChar = true → b2 ≠ [] → b2.all digitChar = true →
      (trimChars n1).map Char.toLower = (trimChars n2).map Char.toLower →
      mergeTracks
          (extractTracks (ofChars ('[' :: 'T' :: 'r' :: 'a' :: 'c' :: 'k' :: ':' ::
              ((n1 ++ '|' :: (a1 ++ '/' :: b1)) ++ [']']))) loc1 ++
            extractTracks (ofChars ('[' :: 'T' :: 'r' :: 'a' :: 'c' :: 'k' :: ':' ::
              ((n2 ++ '|' :: (a2 ++ '/' :: b2)) ++ [']']))) loc2) =
        [(mkEntityId "track:" (trimChars n1),
          { id := mkEntityId "track:" (trimChars n1)
            name := ofChars (trimChars n1)
            current := parseDigits a2
            total := parseDigits b2
            locations := [loc1, loc2] })]) ∧
    (∀ (n1 n2 a1 b1 a2 b2 : List Char) (loc1 loc2 : Location),
      ']' ∉ n1 → '|' ∉ n1 → trimChars n1 ≠ [] →
      ']' ∉ n2 → '|' ∉ n2 → trimChars n2 ≠ [] →
      a1 ≠ [] → a1.all digitChar = true → b1 ≠ [] → b1.all digitChar = true →
      a2 ≠ [] → a2.all digitChar = true → b2 ≠ [] → b2.all digitChar = true →
      (trimChars n1).map Char.toLower = (trimChars n2).map Char.toLower →
      mergeEvents
          (extractEvents (ofChars ('[' :: 'E' :: ':' ::
              ((n1 ++ '|' :: (a1 ++ '/' :: b1)) ++ [']']))) loc1 ++
            extractEvents (ofChars ('[' :: 'E' :: ':' ::
              ((n2 ++ '|' :: (a2 ++ '/' :: b2)) ++ [']']))) loc2) =
        [(mkEntityId "event:" (trimChars n1),
          { id := mkEntityId "event:" (trimChars n1)
            name := ofChars (trimChars n1)
            current := parseDigits a2
            total := parseDigits b2
            locations := [loc1, loc2] })]) ∧
    (∀ (n1 n2 v1 v2 : List Char) (loc1 loc2 : Location),
      ']' ∉ n1 → '|' ∉ n1 → trimChars n1 ≠ [] →
      ']' ∉ n2 → '|' ∉ n2 → trimChars n2 ≠ [] →
      v1 ≠ [] → v1.all digitChar = true → v2 ≠ [] → v2.all digitChar = true →
      (trimChars n1).map Char.toLower = (trimChars n2).map Char.toLower →
      mergeTimers
          (extractTimers (ofChars ('[' :: 'T' :: 'i' :: 'm' :: 'e' :: 'r' :: ':' ::
              ((n1 ++ '|' :: v1) ++ [']']))) loc1 ++
            extractTimers (ofChars ('[' :: 'T' :: 'i' :: 'm' :: 'e' :: 'r' :: ':' ::
              ((n2 ++ '|' :: v2) ++ [']']))) loc2) =
        [(mkEntityId "timer:" (trimChars n1),
          { id := mkEntityId "timer:" (trimChars n1)
            name := ofChars (trimChars n1)
            value := parseDigits v2
            locations := [loc1, loc2] })]) ∧
    (∀ (t : RefType) (nm : String) (loc1 loc2 : Location),
      mergeReferences
          [refToReference ⟨t, nm⟩ loc1, refToReference ⟨t, nm⟩ loc2] =
        [(t.str ++ ":" ++ nm,
          { id := nm
            name := nm
            type := t
            firstMention := loc1
            mentions := [loc1, loc2] })]) ∧
    (∀ (t : RefType) (n1 n2 : String) (loc1 loc2 : Location),
      n1 ≠ n2 →
      mergeReferences
          [refToReference ⟨t, n1⟩ loc1, refToReference ⟨t, n2⟩ loc2] =
        [(t.str ++ ":" ++ n1, refToReference ⟨t, n1⟩ loc1),
          (t.str ++ ":" ++ n2, refToReference ⟨t, n2⟩ loc2)]) :=
  ⟨mergeNPCs_case_ws, mergeLocations_case_ws, mergePlayerCharacters_case_ws,
    mergeThreads_case_ws, mergeClocks_case_ws, mergeTracks_case_ws,
    mergeEvents_case_ws, mergeTimers_case_ws, mergeReferences_case_preserved,
    mergeReferences_case_sensitive⟩

theorem c3_case_key_amended_witness :
    mergeNPCs
        (extractNPCs "[N:Grim]" ⟨"w.md", 1, "Session 1", "S1"⟩ ++
          extractNPCs "[N: GRIM ]" ⟨"w.md", 2, "Session 1", "S1"⟩) =
      [("npc:grim",
        { id := "npc:grim"
          name := "Grim"
          tags := []
          firstMention := ⟨"w.md", 1, "Session 1", "S1"⟩
          mentions := [⟨"w.md", 1, "Session 1", "S1"⟩,
            ⟨"w.md", 2, "Session 1", "S1"⟩] })] ∧
    mergeLocations
        (extractLocations "[L:Dark Woods]" ⟨"w.md", 1, "Session 1", "S1"⟩ ++
          extractLocations "[L: dark WOODS ]" ⟨"w.md", 2, "Session 1", "S1"⟩) =
      [("location:dark woods",
        { id := "location:dark woods"
          name := "Dark Woods"
          tags := []
          firstMention := ⟨"w.md", 1, "Session 1", "S1"⟩
          mentions := [⟨"w.md", 1, "Session 1", "S1"⟩,
            ⟨"w.md", 2, "Session 1", "S1"⟩] })] ∧
    mergePlayerCharacters
        (extractPlayerCharacters "[PC:Elara]" ⟨"w.md", 1, "Session 1", "S1"⟩ ++
          extractPlayerCharacters "[PC: ELARA ]" ⟨"w.md", 2, "Session 1", "S1"⟩) =
      [("pc:elara",
        { id := "pc:elara"
          name := "Elara"
          tags := []
          firstMention := ⟨"w.md", 1, "Session 1", "S1"⟩
          mentions := [⟨"w.md", 1, "Session 1", "S1"⟩,
            ⟨"w.md", 2, "Session 1", "S1"⟩] })] ∧
    mergeThreads
        (extractThreads "[Thread:Quest|Open]" ⟨"w.md", 1, "Session 1", "S1"⟩ ++
          extractThreads "[Thread: QUEST | Closed ]"
            ⟨"w.md", 2, "Session 1", "S1"⟩) =
      [("thread:quest",
        { id := "thread:quest"
          name := "Quest"
          state := "Closed"
          firstMention := ⟨"w.md", 1, "Session 1", "S1"⟩
          mentions := [⟨"w.md", 1, "Session 1", "S1"⟩,
            ⟨"w.md", 2, "Session 1", "S1"⟩] })] ∧
    mergeClocks
        (extractClocks "[Clock:Ritual|3/6]" ⟨"w.md", 1, "Session 1", "S1"⟩ ++
          extractClocks "[Clock: RITUAL |4/6]" ⟨"w.md", 2, "Session 1", "S1"⟩) =
      [("clock:ritual",
        { id := "clock:ritual"
          name := "Ritual"
          current := 4
          total := 6
          locations := [⟨"w.md", 1, "Session 1", "S1"⟩,
            ⟨"w.md", 2, "Session 1", "S1"⟩] })] ∧
    mergeTracks
        (extractTracks "[Track:Escape|1/4]" ⟨"w.md", 1, "Session 1", "S1"⟩ ++
          extractTracks "[Track: escape |2/4]" ⟨"w.md", 2, "Session 1", "S1"⟩) =
      [("track:escape",
        { id := "track:escape"
          name := "Escape"
          current := 2
          total := 4
          locations := [⟨"w.md", 1, "Session 1", "S1"⟩,
            ⟨"w.md", 2, "Session 1", "S1"⟩] })] ∧
    mergeEvents
        (extractEvents "[E:Moon|1/8]" ⟨"w.md", 1, "Session 1", "S1"⟩ ++
          extractEvents "[E: MOON |2/8]" ⟨"w.md", 2, "Session 1", "S1"⟩) =
      [("event:moon",
        { id := "event:moon"
          name := "Moon"
          current := 2
          total := 8
          locations := [⟨"w.md", 1, "Session 1", "S1"⟩,
            ⟨"w.md", 2, "Session 1", "S1"⟩] })] ∧
    mergeTimers
        (extractTimers "[Timer:Dawn|5]" ⟨"w.md", 1, "Session 1", "S1"⟩ ++
          extractTimers "[Timer: DAWN |3]" ⟨"w.md", 2, "Session 1", "S1"⟩) =
      [("timer:dawn",
        { id := "timer:dawn"
          name := "Dawn"
          value := 3
          locations := [⟨"w.md", 1, "Session 1", "S1"⟩,
            ⟨"w.md", 2, "Session 1", "S1"⟩] })] ∧
    mergeReferences
        [refToReference ⟨RefType.npc, "Grim"⟩ ⟨"w.md", 1, "Session 1", "S1"⟩,
          refToReference ⟨RefType.npc, "Grim"⟩ ⟨"w.md", 2, "Session 1", "S1"⟩] =
      [("npc:Grim",
        { id := "Grim"
          name := "Grim"
          type := RefType.npc
          firstMention := ⟨"w.md", 1, "Session 1", "S1"⟩
          mentions := [⟨"w.md", 1, "Session 1", "S1"⟩,
            ⟨"w.md", 2, "Session 1", "S1"⟩] })] ∧
    ("Grim" : String) ≠ "grim" ∧
    mergeReferences
        [refToReference ⟨RefType.npc, "Grim"⟩ ⟨"w.md", 1, "Session 1", "S1"⟩,
          refToReference ⟨RefType.npc, "grim"⟩ ⟨"w.md", 2, "Session 1", "S1"⟩] =
      [("npc:Grim",
          refToReference ⟨RefType.npc, "Grim"⟩ ⟨"w.md", 1, "Session 1", "S1"⟩),
        ("npc:grim",
          refToReference ⟨RefType.npc, "grim"⟩ ⟨"w.md", 2, "Session 1", "S1"⟩)] :=
  ⟨c3_case_key_amended.1 (chars "Grim") (chars " GRIM ")
      ⟨"w.md", 1, "Session 1", "S1"⟩ ⟨"w.md", 2, "Session 1", "S1"⟩
      (by decide) (by decide) (by decide) (by decide) (by decide) (by decide)
      (by decide),
    c3_case_key_amended.2.1 (chars "Dark Woods") (chars " dark WOODS ")
      ⟨"w.md", 1, "Session 1", "S1"⟩ ⟨"w.md", 2, "Session 1", "S1"⟩
      (by decide) (by decide) (by decide) (by decide) (by decide) (by decide)
      (by decide),
    c3_case_key_amended.2.2.1 (chars "Elara") (chars " ELARA ")
      ⟨"w.md", 1, "Session 1", "S1"⟩ ⟨"w.md", 2, "Session 1", "S1"⟩
      (by decide) (by decide) (by decide) (by decide) (by decide) (by decide)
      (by decide),
    c3_case_key_amended.2.2.2.1 (chars "Quest") (chars " QUEST ")
      (chars "Open") (chars " Closed ")
      ⟨"w.md", 1, "Session 1", "S1"⟩ ⟨"w.md", 2, "Session 1", "S1"⟩
      (by decide) (by decide) (by decide) (by decide) (by decide) (by decide)
      (by decide) (by decide) (by decide) (by decide) (by decide),
    c3_case_key_amended.2.2.2.2.1 (chars "Ritual") (chars " RITUAL ")
      (chars "3") (chars "6") (chars "4") (chars "6")
      ⟨"w.md", 1, "Session 1", "S1"⟩ ⟨"w.md", 2, "Session 1", "S1"⟩
      (by decide) (by decide) (by decide) (by decide) (by decide) (by decide)
      (by decide) (by decide) (by decide) (by decide) (by decide) (by decide)
      (by decide) (by decide) (by decide),
    c3_case_key_amended.2.2.2.2.2.1 (chars "Escape") (chars " escape ")
      (chars "1") (chars "4") (chars "2") (chars "4")
      ⟨"w.md", 1, "Session 1", "S1"⟩ ⟨"w.md", 2, "Session 1", "S1"⟩
      (by decide) (by decide) (by decide) (by decide) (by decide) (by decide)
      (by decide) (by decide) (by decide) (by decide) (by decide) (by decide)
      (by decide) (by decide) (by decide),
    c3_case_key_amended.2.2.2.2.2.2.1 (chars "Moon") (chars " MOON ")
      (chars "1") (chars "8") (chars "2") (chars "8")
      ⟨"w.md", 1, "Session 1", "S1"⟩ ⟨"w.md", 2, "Session 1", "S1"⟩
      (by decide) (by decide) (by decide) (by decide) (by decide) (by decide)
      (by decide) (by decide) (by decide) (by decide) (by decide) (by decide)
      (by decide) (by decide) (by decide),
    c3_case_key_amended.2.2.2.2.2.2.2.1 (chars "Dawn") (chars " DAWN ")
      (chars "5") (chars "3")
      ⟨"w.md", 1, "Session 1", "S1"⟩ ⟨"w.md", 2, "Session 1", "S1"⟩
      (by decide) (by decide) (by decide) (by decide) (by decide) (by decide)
      (by decide) (by decide) (by decide) (by decide) (by decide),
    c3_case_key_amended.2.2.2.2.2.2.2.2.1 RefType.npc "Grim"
      ⟨"w.md", 1, "Session 1", "S1"⟩ ⟨"w.md", 2, "Session 1", "S1"⟩,
    by decide,
    c3_case_key_amended.2.2.2.2.2.2.2.2.2 RefType.npc "Grim" "grim"
      ⟨"w.md", 1, "Session 1", "S1"⟩ ⟨"w.md", 2, "Session 1", "S1"⟩
      (by decide)⟩

end SoloRPG
